import Mathlib

/-!
# Verification of the price-resolution and fallback-caching engine

Shallow embedding of the CoinGecko price service (`CoinGeckoAPIService` in
the backend source) together with its `TokenRegistry`, and proofs of the
specification claims about them.

Modelling conventions:
* JavaScript objects used as string-keyed maps (`Record<string, number>`,
  the request cache `Map`) are embedded as association lists with
  replace-in-place-or-append insertion, matching JS assignment semantics
  (updating an existing key keeps its position, a new key is appended).
* USD prices (`number`) are embedded as `Rat`.
* Time (`Date.now()`) is a `Nat` parameter, held fixed during one public
  call; successive public calls may be given different times.
* Upstream HTTP endpoints are an oracle (`Upstream`); `none` uniformly
  stands for any failed call (thrown fetch, non-ok status, or a payload
  whose guard chain is falsy).  Each public operation also returns the
  chronological list of upstream calls it issued, so call-count claims
  can be stated.
-/

namespace AIWallet

/-- JS-object insertion: assignment to an existing key replaces the value
in place, a fresh key is appended at the end. -/
def objSet {β : Type} (m : List (String × β)) (k : String) (v : β) :
    List (String × β) :=
  if m.any (fun p => p.1 = k) then
    m.map (fun p => if p.1 = k then (k, v) else p)
  else
    m ++ [(k, v)]

/-- JS-object read: value at key `k`, if present. -/
def objGet {β : Type} (m : List (String × β)) (k : String) : Option β :=
  (m.find? (fun p => p.1 = k)).map (fun p => p.2)

/-- Truthiness of `m[k]` for a numeric-valued JS object: false when the key
is absent or its value is `0`. -/
def objTruthy (m : List (String × Rat)) (k : String) : Bool :=
  match objGet m k with
  | some v => v ≠ 0
  | none => false

/-- `Object.assign(target, source)`: copy every entry of `src` into `tgt`
in order. -/
def objAssign {β : Type} (tgt src : List (String × β)) : List (String × β) :=
  src.foldl (fun m p => objSet m p.1 p.2) tgt

/-- A price map, `Record<string, number>` in the source. -/
abbrev PriceMap := List (String × Rat)

/-- `String.prototype.toLowerCase()`.  The strings this system lowercases
(network names) are ASCII, where JS lowercasing is per-character ASCII
lowercasing. -/
def toLowerStr (s : String) : String :=
  ⟨s.data.map Char.toLower⟩

/-- Is `pat` a contiguous sublist of `l`? -/
def listIsInfixOf (pat l : List Char) : Bool :=
  match l with
  | [] => pat.isEmpty
  | _ :: t => pat.isPrefixOf l || listIsInfixOf pat t

/-- JS default string comparison (lexicographic by code unit: for the ASCII
addresses and names in use, per-character codepoint order). -/
def strLe (s t : String) : Bool :=
  charListLe s.data t.data
where
  charListLe : List Char → List Char → Bool
    | [], _ => true
    | _ :: _, [] => false
    | a :: as, b :: bs =>
      if a < b then true else if b < a then false else charListLe as bs

/-- Insert into a sorted list of strings. -/
def insertSorted (a : String) : List String → List String
  | [] => [a]
  | b :: l => if strLe a b then a :: b :: l else b :: insertSorted a l

/-- `Array.prototype.sort()` with the default (string) comparator: returns
the list sorted by `strLe`.  (The source's call mutates its argument before
the later `filter` passes; the embedding threads the sorted list
explicitly.) -/
def sortStrings : List String → List String
  | [] => []
  | a :: l => insertSorted a (sortStrings l)

/-- `Array.prototype.join(',')`. -/
def joinComma : List String → String
  | [] => ""
  | [a] => a
  | a :: l => a ++ "," ++ joinComma l

namespace TokenRegistry

/-- Per-network token data (`NetworkTokens` in `tokenRegistry.ts`):
stablecoin addresses and the address → CoinGecko-id map. -/
structure NetworkTokens where
  stablecoins : List String
  knownTokens : List (String × String)

/-- `networks.solana` in `tokenRegistry.ts`. -/
def solanaTokens : NetworkTokens where
  stablecoins :=
    [ "EPjFWdd5AufqSSqeM2qN1xzybapC8G4wEGGkZwyTDt1v"  -- USDC
    , "Es9vMFrzaCERmJfrF4H2FYD4KCoNkY11McCe8BenwNYB" ] -- USDT
  knownTokens :=
    [ ("So11111111111111111111111111111111111111112", "solana")
    , ("EPjFWdd5AufqSSqeM2qN1xzybapC8G4wEGGkZwyTDt1v", "usd-coin")
    , ("Es9vMFrzaCERmJfrF4H2FYD4KCoNkY11McCe8BenwNYB", "tether")
    , ("4k3Dyjzvzp8eMZWUXbBCjEvwSkkk59S5iCNLY3QrkX6R", "raydium")
    , ("SRMuApVNdxXokk5GT7XD5cUUgXMBCoAz2LHeuAoKWRt", "serum")
    , ("MangoCzJ36AjZyKwVj3VnYU4GTonjfVEnJmvvWaxLac", "mango-markets")
    , ("orcaEKTdK7LKz57vaAYr9QeNsVEPfiu6QeMU1kektZE", "orca")
    , ("StepAscQoEioFxxWGnh2sLBDFp9d8rvKz2Yp39iDpyT", "step-finance")
    , ("CopEFkRzkYgfYKFVLWdgELNNFyNVdWE1jVgVjdJMYFSX", "cope")
    , ("7dHbWXmci3dT8UFYWYZweBLXgycu7Y3iL6trKn1Y7ARj", "samoyedcoin")
    , ("EchesyfXePKdLtoiZSL8pBe8Myagyy8ZRqsACNCFGnvp", "bonfida")
    , ("kinXdEcpDQeHPEuQnqmUgtYykqKGVFq6CeVX5iAHJq6", "kin") ]

/-- `networks.ethereum` in `tokenRegistry.ts`. -/
def ethereumTokens : NetworkTokens where
  stablecoins :=
    [ "0xA0b86a33E6441b8C4505B8C4505B8C4505B8C4505"
    , "0xdAC17F958D2ee523a2206206994597C13D831ec7" ]
  knownTokens :=
    [ ("0xC02aaA39b223FE8D0A0e5C4F27eAD9083C756Cc2", "ethereum")
    , ("0xA0b86a33E6441b8C4505B8C4505B8C4505B8C4505", "usd-coin")
    , ("0xdAC17F958D2ee523a2206206994597C13D831ec7", "tether") ]

/-- `networks.polygon` in `tokenRegistry.ts`. -/
def polygonTokens : NetworkTokens where
  stablecoins :=
    [ "0x2791Bca1f2de4661ED88A30C99A7a9449Aa84174"
    , "0xc2132D05D31c914a87C6611C10748AEb04B58e8F" ]
  knownTokens :=
    [ ("0x0d500B1d8E8eF31E21C99d1Db9A6444d3ADf1270", "matic-network")
    , ("0x2791Bca1f2de4661ED88A30C99A7a9449Aa84174", "usd-coin")
    , ("0xc2132D05D31c914a87C6611C10748AEb04B58e8F", "tether") ]

/-- `networks.base` in `tokenRegistry.ts`. -/
def baseTokens : NetworkTokens where
  stablecoins :=
    [ "0x833589fCD6eDb6E08f4c7C32D4f71b54bdA02913"
    , "0xfde4C96c8593536E31F229EA8f37b2ADa2699bb2" ]
  knownTokens :=
    [ ("0x4200000000000000000000000000000000000006", "ethereum")
    , ("0x833589fCD6eDb6E08f4c7C32D4f71b54bdA02913", "usd-coin")
    , ("0xfde4C96c8593536E31F229EA8f37b2ADa2699bb2", "tether")
    , ("0x50c5725949A6F0c72E6C4a641F24049A917DB0Cb", "dai")
    , ("0x2Ae3F1Ec7F1F5012CFEab0185bfc7aa3cf0DEc22", "coinbase-wrapped-staked-eth")
    , ("0xc1CBa3fCea344f92D9239c08C0568f6F2F0ee452", "wrapped-steth")
    , ("0x940181a94A35A4569E4529A3CDfB74e38FD98631", "aerodrome-finance")
    , ("0x0578d8A44db98B23BF096A382e016e29a5Ce0ffe", "higher")
    , ("0x532f27101965dd16442E59d40670FaF5eBB142E4", "brett")
    , ("0x4ed4E862860beD51a9570b96d89aF5E1B0Efefed", "degen-base")
    , ("0x60a3E35Cc302bFA44Cb288Bc5a4F316Fdb1adb42", "eurc")
    , ("0x78a087d713Be963Bf307b18F2Ff8122EF9A63ae9", "base-god")
    , ("0x27D2DECb4bFC9C76F0309b8E88dec3a601Fe25a8", "bald")
    , ("0x8Ee73c484A26e0A5df2Ee2a4960B789967dd0415", "op-token")
    , ("0x417Ac0e078398C154EdFadD9Ef675d30Be60Af93", "curve-dao-token")
    , ("0x1f9840a85d5aF5bf1D1762F925BDADdC4201F984", "uniswap")
    , ("0x3992B27dA26848C2b19CeA6Fd25ad5568B68AB98", "toshi")
    , ("0x236aa50979D5f3De3Bd1Eeb40E81137F22ab794b", "tbtc")
    , ("0xA88594D404727625A9437C3f886C7643872296AE", "well")
    , ("0x9EaF8C1E34F05a589EDa6BAfdF391Cf6Ad3CB239", "yearn-finance") ]

/-- Property access `this.networks[key]` on the static `networks` record. -/
def networkTokens (key : String) : Option NetworkTokens :=
  if key = "solana" then some solanaTokens
  else if key = "ethereum" then some ethereumTokens
  else if key = "polygon" then some polygonTokens
  else if key = "base" then some baseTokens
  else none

/-- `TokenRegistry.getStablecoinAddresses(network)`. -/
def getStablecoinAddresses (network : String) : List String :=
  match networkTokens (toLowerStr network) with
  | some t => t.stablecoins
  | none => []

/-- `TokenRegistry.getKnownTokenMapping(network)`. -/
def getKnownTokenMapping (network : String) : List (String × String) :=
  match networkTokens (toLowerStr network) with
  | some t => t.knownTokens
  | none => []

/-- `TokenRegistry.isStablecoin(tokenAddress, network)`. -/
def isStablecoin (tokenAddress network : String) : Bool :=
  (getStablecoinAddresses network).contains tokenAddress

/-- `TokenRegistry.getCoinGeckoId(tokenAddress, network)`. -/
def getCoinGeckoId (tokenAddress network : String) : Option String :=
  objGet (getKnownTokenMapping network) tokenAddress

/-- `TokenRegistry.getSupportedNetworks()`. -/
def getSupportedNetworks : List String :=
  ["solana", "ethereum", "polygon", "base"]

/-- `TokenRegistry.isNetworkSupported(network)`. -/
def isNetworkSupported (network : String) : Bool :=
  (networkTokens (toLowerStr network)).isSome

/-- Metadata record synthesized by `getStablecoinMetadata`. -/
structure StablecoinMeta where
  address : String
  symbol : String
  name : String
  decimals : Nat

/-- `String.prototype.includes(pat)` on `s`. -/
def strIncludes (s pat : String) : Bool :=
  listIsInfixOf pat.data s.data

/-- `TokenRegistry.getStablecoinMetadata(network)`. -/
def getStablecoinMetadata (network : String) : List StablecoinMeta :=
  (getStablecoinAddresses network).map (fun address =>
    let isUSDC :=
      strIncludes address "833589fCD6eDb6E08f4c7C32D4f71b54bdA02913" ||
      strIncludes address "EPjFWdd5AufqSSqeM2qN1xzybapC8G4wEGGkZwyTDt1v" ||
      strIncludes address "A0b86a33E6441b8C4505B8C4505B8C4505B8C4505" ||
      strIncludes address "2791Bca1f2de4661ED88A30C99A7a9449Aa84174"
    { address := address
      symbol := if isUSDC then "USDC" else "USDT"
      name := if isUSDC then "USD Coin" else "Tether USD"
      decimals := 6 })

end TokenRegistry

/-! ## The CoinGecko service (`CoinGeckoAPIService`, part_000)

State of one service instance: the `requestCache` map and the current
time.  Upstream HTTP endpoints are an oracle; each operation returns the
chronological list of upstream calls it issued. -/

/-- `TokenData` (types/api.ts): `address` and `network` always present,
every other field optional. -/
structure TokenData where
  address : String
  network : String
  name : Option String := none
  symbol : Option String := none
  decimals : Option Nat := none
  price_usd : Option Rat := none
  market_cap_usd : Option Rat := none
  volume_24h_usd : Option Rat := none
  price_change_24h : Option Rat := none
  price_change_percentage_24h : Option Rat := none
  price_change_percentage_7d : Option Rat := none
  price_change_percentage_30d : Option Rat := none
  total_supply : Option Rat := none
  circulating_supply : Option Rat := none
  max_supply : Option Rat := none
  ath : Option Rat := none
  ath_date : Option String := none
  atl : Option Rat := none
  atl_date : Option String := none
  last_updated : Option String := none
  coingecko_id : Option String := none
  image : Option String := none
  description : Option String := none
  deriving DecidableEq, Repr

/-- Attributes payload of the single-token onchain endpoint
(`/onchain/networks/{network}/tokens/{address}`), as consumed by
`getTokenData` lines 275–290.  For each field read behind a JS truthiness
guard (`price_usd`, `market_cap_usd`, `volume_24h?.usd`, the two change
fields, `total_supply`), `some v` stands for "the guard passed and the
parsed value is `v`", `none` for a failing guard. -/
structure OnchainAttrs where
  name : Option String := none
  symbol : Option String := none
  decimals : Option Nat := none
  price_usd : Option Rat := none
  market_cap_usd : Option Rat := none
  volume_24h_usd : Option Rat := none
  price_change_24h_usd : Option Rat := none
  price_change_percentage_24h_usd : Option Rat := none
  total_supply : Option Rat := none
  image_url : Option String := none
  description : Option String := none
  updated_at : Option String := none
  deriving DecidableEq, Repr

/-- `market_data` sub-object of the `/coins/{id}` response, as consumed by
`getTokenData` lines 329–346.  Same convention: `some v` stands for a field
that is present and truthy. -/
structure CoinsMarketData where
  current_price_usd : Option Rat := none
  market_cap_usd : Option Rat := none
  total_volume_usd : Option Rat := none
  price_change_24h : Option Rat := none
  price_change_percentage_24h : Option Rat := none
  price_change_percentage_7d : Option Rat := none
  price_change_percentage_30d : Option Rat := none
  total_supply : Option Rat := none
  circulating_supply : Option Rat := none
  max_supply : Option Rat := none
  ath_usd : Option Rat := none
  ath_date_usd : Option String := none
  atl_usd : Option Rat := none
  atl_date_usd : Option String := none
  last_updated : Option String := none
  deriving DecidableEq, Repr

/-- `/coins/{id}` response, as consumed by `getTokenData` lines 320–346. -/
structure CoinsDetail where
  id : Option String := none
  name : Option String := none
  symbol : Option String := none
  image_large : Option String := none
  image_small : Option String := none
  description_en : Option String := none
  market_data : Option CoinsMarketData := none
  deriving DecidableEq, Repr

/-- One upstream HTTP request issued by the service. -/
inductive UpstreamCall where
  /-- `/onchain/networks/{network}/tokens/multi/{addresses}` -/
  | onchainMulti (network : String) (addresses : List String)
  /-- `/simple/price?ids={id}&vs_currencies=usd` -/
  | simplePrice (id : String)
  /-- `/onchain/networks/{network}/tokens/{address}` -/
  | onchainToken (network : String) (address : String)
  /-- `/coins/{id}?...` -/
  | coinsDetail (id : String)
  deriving DecidableEq, Repr

/-- The upstream world: what each endpoint would answer.  `none` uniformly
stands for a failed call: a thrown `fetch`, a non-ok status, or a payload
whose guard chain (`data.data`, `data.data.attributes`, …) is falsy.
For `onchainMulti`, an entry `(a, p)` is present exactly when
`data.data[a] && data.data[a].attributes && data.data[a].attributes.price_usd`
is truthy and that `price_usd` string parses to `p` (a string `"0"` is
truthy and parses to `0`, so `p = 0` is representable).  For
`simplePrice`, `some p` means the response was ok with
`fallbackData[id].usd = p` present (the caller separately checks the
truthiness of `p`). -/
structure Upstream where
  onchainMulti : String → List String → Option (List (String × Rat))
  simplePrice : String → Option Rat
  onchainToken : String → String → Option OnchainAttrs
  coinsDetail : String → Option CoinsDetail

/-- A value held by the `requestCache` (`any` in the source: the three
kinds actually stored). -/
inductive CacheVal where
  | prices (m : PriceMap)
  | price (p : Rat)
  | tokenData (t : TokenData)
  deriving DecidableEq, Repr

/-- JS truthiness of a cached value, as tested by `if (cached)` at each
call site: a number `0` is falsy, objects are always truthy. -/
def CacheVal.truthy : CacheVal → Bool
  | .price p => p ≠ 0
  | _ => true

/-- Reading a cached value at a `prices_…` key as a price map.  The three
key families (`prices_…`, `solana_price`, `token_data_…`) are disjoint,
so the non-`prices` branches are unreachable; they are given a junk
default. -/
def CacheVal.asPrices : CacheVal → PriceMap
  | .prices m => m
  | _ => []

/-- Reading the `solana_price` entry as a number (junk default on the
unreachable variants). -/
def CacheVal.asPrice : CacheVal → Rat
  | .price p => p
  | _ => 0

/-- Reading a `token_data_…` entry as a token record (junk default on the
unreachable variants). -/
def CacheVal.asTokenData : CacheVal → Option TokenData
  | .tokenData t => some t
  | _ => none

/-- An entry of `requestCache`: `{ data, timestamp }`. -/
structure CacheEntry where
  data : CacheVal
  timestamp : Nat
  deriving DecidableEq, Repr

/-- The `requestCache` map, in insertion order. -/
abbrev Cache := List (String × CacheEntry)

/-- `cacheTimeout = 60000` (one minute, in milliseconds). -/
def cacheTimeout : Nat := 60000

/-- `getCachedData(key)` at time `now`: returns the stored value if it is
live, and the cache after the read (an expired entry is deleted by the
read).  JS `Date.now() - cached.timestamp` can be negative and still
`< cacheTimeout`; `Nat` truncated subtraction gives `0` there, which is
also `< cacheTimeout` — the two agree. -/
def getCachedData (cache : Cache) (now : Nat) (key : String) :
    Option CacheVal × Cache :=
  match objGet cache key with
  | some cached =>
      if now - cached.timestamp < cacheTimeout then (some cached.data, cache)
      else (none, cache.filter (fun p => p.1 ≠ key))
  | none => (none, cache)

/-- `setCachedData(key, data)`: unconditional overwrite with the current
timestamp (`Map.set` keeps the position of an existing key, appends a new
one). -/
def setCachedData (cache : Cache) (now : Nat) (key : String) (v : CacheVal) :
    Cache :=
  objSet cache key ⟨v, now⟩

/-- Result of one public operation: its return value, the cache it leaves
behind, and the upstream calls it issued, in order. -/
structure Res (α : Type) where
  val : α
  cache : Cache
  calls : List UpstreamCall
  deriving DecidableEq, Repr

/-- The stablecoin loop of `getTokenPrices` (lines 53–58): assign `1.0`
to every valid address that is a registry stablecoin. -/
def stableLoop (stablecoins addrs : List String) (m : PriceMap) : PriceMap :=
  addrs.foldl
    (fun m address =>
      if stablecoins.contains address then objSet m address 1 else m) m

/-- The onchain-response loop of `getTokenPrices` (lines 93–98): record
each queried address whose response entry passed the
`tokenData && tokenData.attributes && tokenData.attributes.price_usd`
guard. -/
def onchainLoop (resp : List (String × Rat)) (addrs : List String)
    (m : PriceMap) : PriceMap :=
  addrs.foldl
    (fun m address =>
      match objGet resp address with
      | some p => objSet m address p
      | none => m) m

/-- The fallback loop of `getTokenPrices` (lines 114–138): for each
address with a registry CoinGecko id, issue one simple-price call and
record the price only when `fallbackData[tokenId] && fallbackData[tokenId].usd`
is truthy — a `usd` of `0` is falsy and is not recorded.  A failed call
(`none`) records nothing.  Addresses with no mapped id issue no call. -/
def fbStep (up : Upstream) (knownTokens : List (String × String))
    (acc : PriceMap × List UpstreamCall) (address : String) :
    PriceMap × List UpstreamCall :=
  match objGet knownTokens address with
  | some tokenId =>
      let calls := acc.2 ++ [UpstreamCall.simplePrice tokenId]
      match up.simplePrice tokenId with
      | some usd =>
          if usd ≠ 0 then (objSet acc.1 address usd, calls)
          else (acc.1, calls)
      | none => (acc.1, calls)
  | none => acc

/-- See `fbStep` for the loop body. -/
def fallbackLoop (up : Upstream) (knownTokens : List (String × String))
    (addrs : List String) (m : PriceMap) :
    PriceMap × List UpstreamCall :=
  addrs.foldl (fbStep up knownTokens) (m, [])

/-- `CoinGeckoAPIService.getTokenPrices(tokenAddresses, network)`
(part_000 lines 28–151).  Note: the cache key (line 35) is built from the
sorted, comma-joined address list only — the `network` argument is not
part of it.  `tokenAddresses.sort()` mutates the array in the source, so
the later `filter` passes run over the sorted list.  The surrounding
`try`/`catch` returns `{}` on an exception; every upstream failure is
already absorbed per tier, so the embedding is total. -/
def getTokenPrices (up : Upstream) (now : Nat) (cache : Cache)
    (tokenAddresses : List String) (network : String := "solana") :
    Res PriceMap :=
  if tokenAddresses.isEmpty then ⟨[], cache, []⟩
  else
    let sorted := sortStrings tokenAddresses
    let cacheKey := "prices_" ++ joinComma sorted
    let read := getCachedData cache now cacheKey
    let cache := read.2
    match read.1.filter CacheVal.truthy with
    | some v => ⟨v.asPrices, cache, []⟩
    | none =>
      let validAddresses := sorted.filter (fun addr => addr ≠ "")
      if validAddresses.isEmpty then ⟨[], cache, []⟩
      else
        let stablecoins := TokenRegistry.getStablecoinAddresses network
        let priceMap := stableLoop stablecoins validAddresses []
        let nonStablecoinAddresses :=
          validAddresses.filter (fun addr => ¬ stablecoins.contains addr)
        if nonStablecoinAddresses.isEmpty then
          ⟨priceMap, setCachedData cache now cacheKey (.prices priceMap), []⟩
        else
          let priceMap1 :=
            match up.onchainMulti network nonStablecoinAddresses with
            | some resp => onchainLoop resp nonStablecoinAddresses priceMap
            | none => priceMap
          let knownTokens := TokenRegistry.getKnownTokenMapping network
          let unmappedAddresses :=
            nonStablecoinAddresses.filter (fun addr => ¬ objTruthy priceMap1 addr)
          let fb :=
            if unmappedAddresses.isEmpty then (priceMap1, [])
            else fallbackLoop up knownTokens unmappedAddresses priceMap1
          let cache2 :=
            if fb.1.isEmpty then cache
            else setCachedData cache now cacheKey (.prices fb.1)
          ⟨fb.1, cache2, .onchainMulti network nonStablecoinAddresses :: fb.2⟩

/-- The wrapped-SOL mint address used by `getSolanaPrice`. -/
def solMintAddress : String := "So11111111111111111111111111111111111111112"

/-- `CoinGeckoAPIService.getSolanaPrice()` (lines 156–204).  The direct
simple-price fallback reads `data.solana?.usd || 0`; `up.simplePrice
"solana" = some usd` stands for an ok response carrying that field, and
`usd || 0` is the identity on the carried value since `0 || 0 = 0`. -/
def getSolanaPrice (up : Upstream) (now : Nat) (cache : Cache) : Res Rat :=
  let read := getCachedData cache now "solana_price"
  let cache := read.2
  match read.1.filter CacheVal.truthy with
  | some v => ⟨v.asPrice, cache, []⟩
  | none =>
    let r := getTokenPrices up now cache [solMintAddress]
    let price := (objGet r.val solMintAddress).getD 0
    let step2 :=
      if price = 0 then
        match up.simplePrice "solana" with
        | some usd => (usd, [UpstreamCall.simplePrice "solana"])
        | none => ((0 : Rat), [UpstreamCall.simplePrice "solana"])
      else (price, ([] : List UpstreamCall))
    let cache2 :=
      if step2.1 > 0 then setCachedData r.cache now "solana_price" (.price step2.1)
      else r.cache
    ⟨step2.1, cache2, r.calls ++ step2.2⟩

/-- `CoinGeckoAPIService.getTokenPrice(tokenAddress, network)`
(lines 211–219): sugar over `getTokenPrices`, `prices[tokenAddress] || 0`. -/
def getTokenPrice (up : Upstream) (now : Nat) (cache : Cache)
    (tokenAddress : String) (network : String := "solana") : Res Rat :=
  let r := getTokenPrices up now cache [tokenAddress] network
  ⟨(objGet r.val tokenAddress).getD 0, r.cache, r.calls⟩

/-- `String.prototype.toUpperCase()` (ASCII, like `toLowerStr`). -/
def toUpperStr (s : String) : String :=
  ⟨s.data.map Char.toUpper⟩

/-- `x || d` for an optional string, with JS falsiness: absent or `""`
falls back to `d`. -/
def jsOrStr (o : Option String) (d : String) : String :=
  match o with
  | some s => if s = "" then d else s
  | none => d

/-- `x || d` for an optional number, with JS falsiness: absent or `0`
falls back to `d`. -/
def jsOrNat (o : Option Nat) (d : Nat) : Nat :=
  match o with
  | some v => if v = 0 then d else v
  | none => d

/-- `a || b` where both sides are optional strings
(`data.image?.large || data.image?.small`). -/
def jsOrOptStr (a b : Option String) : Option String :=
  match a with
  | some s => if s = "" then b else some s
  | none => b

/-- Field population from the single-token onchain attributes
(`getTokenData` lines 279–290).  `name`, `symbol`, `image`, `description`,
`last_updated` are assigned unconditionally (possibly to `undefined`);
`decimals` is guarded by `!== undefined`; the numeric fields are guarded
by truthiness (carried by the `Option` in `OnchainAttrs`). -/
def applyOnchainAttrs (t : TokenData) (attrs : OnchainAttrs) : TokenData :=
  { t with
    name := attrs.name
    symbol := attrs.symbol
    decimals := match attrs.decimals with
      | some d => some d
      | none => t.decimals
    price_usd := match attrs.price_usd with
      | some v => some v
      | none => t.price_usd
    market_cap_usd := match attrs.market_cap_usd with
      | some v => some v
      | none => t.market_cap_usd
    volume_24h_usd := match attrs.volume_24h_usd with
      | some v => some v
      | none => t.volume_24h_usd
    price_change_24h := match attrs.price_change_24h_usd with
      | some v => some v
      | none => t.price_change_24h
    price_change_percentage_24h := match attrs.price_change_percentage_24h_usd with
      | some v => some v
      | none => t.price_change_percentage_24h
    total_supply := match attrs.total_supply with
      | some v => some v
      | none => t.total_supply
    image := attrs.image_url
    description := attrs.description
    last_updated := attrs.updated_at }

/-- Field population from the `/coins/{id}` response (`getTokenData`
lines 322–346): header fields assigned unconditionally, market-data
fields each behind a truthiness guard (carried by the `Option`s in
`CoinsMarketData`). -/
def applyCoinsDetail (t : TokenData) (data : CoinsDetail) : TokenData :=
  let t := { t with
    coingecko_id := data.id
    name := data.name
    symbol := data.symbol.map toUpperStr
    image := jsOrOptStr data.image_large data.image_small
    description := data.description_en }
  match data.market_data with
  | some md =>
    { t with
      price_usd := match md.current_price_usd with
        | some v => some v
        | none => t.price_usd
      market_cap_usd := match md.market_cap_usd with
        | some v => some v
        | none => t.market_cap_usd
      volume_24h_usd := match md.total_volume_usd with
        | some v => some v
        | none => t.volume_24h_usd
      price_change_24h := match md.price_change_24h with
        | some v => some v
        | none => t.price_change_24h
      price_change_percentage_24h := match md.price_change_percentage_24h with
        | some v => some v
        | none => t.price_change_percentage_24h
      price_change_percentage_7d := match md.price_change_percentage_7d with
        | some v => some v
        | none => t.price_change_percentage_7d
      price_change_percentage_30d := match md.price_change_percentage_30d with
        | some v => some v
        | none => t.price_change_percentage_30d
      total_supply := match md.total_supply with
        | some v => some v
        | none => t.total_supply
      circulating_supply := match md.circulating_supply with
        | some v => some v
        | none => t.circulating_supply
      max_supply := match md.max_supply with
        | some v => some v
        | none => t.max_supply
      ath := match md.ath_usd with
        | some v => some v
        | none => t.ath
      ath_date := match md.ath_date_usd with
        | some v => some v
        | none => t.ath_date
      atl := match md.atl_usd with
        | some v => some v
        | none => t.atl
      atl_date := match md.atl_date_usd with
        | some v => some v
        | none => t.atl_date
      last_updated := match md.last_updated with
        | some v => some v
        | none => t.last_updated }
  | none => t

/-- Tail of `getTokenData` from line 358 on: "If we still don't have data,
try to get at least the price" — one `getTokenPrice` call; a positive
price yields a cached record, otherwise the result is `null`. -/
def getTokenDataPriceTier (up : Upstream) (now : Nat) (cache : Cache)
    (tokenData : TokenData) (tokenAddress network cacheKey : String)
    (calls : List UpstreamCall) : Res (Option TokenData) :=
  let r := getTokenPrice up now cache tokenAddress network
  if r.val > 0 then
    let tokenData := { tokenData with price_usd := some r.val }
    ⟨some tokenData, setCachedData r.cache now cacheKey (.tokenData tokenData),
      calls ++ r.calls⟩
  else
    ⟨none, r.cache, calls ++ r.calls⟩

/-- Middle of `getTokenData` from line 304 on: the registry-id fallback
(`/coins/{id}`), falling through to the price-only tier. -/
def getTokenDataCoinsTier (up : Upstream) (now : Nat) (cache : Cache)
    (tokenData : TokenData) (tokenAddress network cacheKey : String)
    (calls : List UpstreamCall) : Res (Option TokenData) :=
  match TokenRegistry.getCoinGeckoId tokenAddress network with
  | some coingeckoId =>
      let calls := calls ++ [UpstreamCall.coinsDetail coingeckoId]
      match up.coinsDetail coingeckoId with
      | some data =>
          let tokenData := applyCoinsDetail tokenData data
          ⟨some tokenData, setCachedData cache now cacheKey (.tokenData tokenData),
            calls⟩
      | none =>
          getTokenDataPriceTier up now cache tokenData tokenAddress network
            cacheKey calls
  | none =>
      getTokenDataPriceTier up now cache tokenData tokenAddress network
        cacheKey calls

/-- `CoinGeckoAPIService.getTokenData(tokenAddress, network)`
(lines 226–375).  The cache key here IS network-qualified
(`token_data_{network}_{address}`, line 232).  The stablecoin branch
(lines 246–257) synthesizes a record without any upstream call. -/
def getTokenData (up : Upstream) (now : Nat) (cache : Cache)
    (tokenAddress : String) (network : String := "solana") :
    Res (Option TokenData) :=
  if tokenAddress = "" then ⟨none, cache, []⟩
  else
    let cacheKey := "token_data_" ++ network ++ "_" ++ tokenAddress
    let read := getCachedData cache now cacheKey
    let cache := read.2
    match read.1.filter CacheVal.truthy with
    | some v => ⟨v.asTokenData, cache, []⟩
    | none =>
      let tokenData : TokenData :=
        { address := tokenAddress, network := toLowerStr network }
      if TokenRegistry.isStablecoin tokenAddress network then
        let metadata :=
          (TokenRegistry.getStablecoinMetadata network).find?
            (fun s => s.address = tokenAddress)
        let tokenData := { tokenData with
          price_usd := some 1
          symbol := some (jsOrStr (metadata.map (fun m => m.symbol)) "STABLECOIN")
          name := some (jsOrStr (metadata.map (fun m => m.name)) "Stablecoin")
          decimals := some (jsOrNat (metadata.map (fun m => m.decimals)) 6) }
        ⟨some tokenData, setCachedData cache now cacheKey (.tokenData tokenData), []⟩
      else
        let calls := [UpstreamCall.onchainToken network tokenAddress]
        match up.onchainToken network tokenAddress with
        | some attrs =>
            let tokenData := applyOnchainAttrs tokenData attrs
            ⟨some tokenData, setCachedData cache now cacheKey (.tokenData tokenData),
              calls⟩
        | none =>
            getTokenDataCoinsTier up now cache tokenData tokenAddress network
              cacheKey calls

/-- The chunking loop of `getTokenPricesBatch` (lines 426–429), written
with an explicit fuel bounded by the list length: with `batchSize ≥ 1` the
source loop performs at most `tokenAddresses.length` iterations, so the
fuel never runs out.  (With `batchSize = 0` the source loop does not
terminate; the claims only concern `batchSize ≥ 1`.) -/
def chunkGo : Nat → List String → Nat → List (List String)
  | 0, _, _ => []
  | _ + 1, [], _ => []
  | fuel + 1, a :: l, n => (a :: l).take n :: chunkGo fuel ((a :: l).drop n) n

/-- `batches` as built by `getTokenPricesBatch` lines 426–429. -/
def chunkList (l : List String) (n : Nat) : List (List String) :=
  chunkGo l.length l n

/-- `CoinGeckoAPIService.getTokenPricesBatch(tokenAddresses, batchSize,
network)` (lines 421–449): delegate directly when the input fits in one
batch, otherwise resolve fixed-size contiguous chunks sequentially and
merge with `Object.assign`.  The `try`/`catch` around each chunk is dead
in the embedding because `getTokenPrices` is total; the 200 ms pacing
delay does not change any modelled state (time is held fixed during the
call). -/
def getTokenPricesBatch (up : Upstream) (now : Nat) (cache : Cache)
    (tokenAddresses : List String) (batchSize : Nat := 30)
    (network : String := "solana") : Res PriceMap :=
  if tokenAddresses.length ≤ batchSize then
    getTokenPrices up now cache tokenAddresses network
  else
    let batches := chunkList tokenAddresses batchSize
    batches.foldl
      (fun (acc : Res PriceMap) batch =>
        let r := getTokenPrices up now acc.cache batch network
        ⟨objAssign acc.val r.val, r.cache, acc.calls ++ r.calls⟩)
      ⟨[], cache, []⟩

/-! ## Proof-side descriptions of the intermediate stages of
`getTokenPrices`, mirroring its `let`s, and an upstream oracle on which
every call fails. -/

/-- The upstream world in which every call fails. -/
def failingUpstream : Upstream where
  onchainMulti := fun _ _ => none
  simplePrice := fun _ => none
  onchainToken := fun _ _ => none
  coinsDetail := fun _ => none

/-- `validAddresses` of `getTokenPrices` (the sorted list, blanks
dropped). -/
def validOf (l : List String) : List String :=
  (sortStrings l).filter (fun addr => addr ≠ "")

/-- The cache key of `getTokenPrices` (line 35): no network component. -/
def priceKey (l : List String) : String :=
  "prices_" ++ joinComma (sortStrings l)

/-- `nonStablecoinAddresses` of `getTokenPrices`. -/
def nonStableOf (l : List String) (net : String) : List String :=
  (validOf l).filter
    (fun addr => ¬ (TokenRegistry.getStablecoinAddresses net).contains addr)

/-- The price map after the stablecoin tier. -/
def stableMapOf (l : List String) (net : String) : PriceMap :=
  stableLoop (TokenRegistry.getStablecoinAddresses net) (validOf l) []

/-- The price map after the bulk onchain tier. -/
def bulkMapOf (up : Upstream) (l : List String) (net : String) : PriceMap :=
  match up.onchainMulti net (nonStableOf l net) with
  | some resp => onchainLoop resp (nonStableOf l net) (stableMapOf l net)
  | none => stableMapOf l net

/-- `unmappedAddresses` of `getTokenPrices`: still falsy after the bulk
tier. -/
def unmappedOf (up : Upstream) (l : List String) (net : String) :
    List String :=
  (nonStableOf l net).filter (fun addr => ¬ objTruthy (bulkMapOf up l net) addr)

/-- What the bulk onchain tier answered for one queried address (`none`
covers both a failed call and an address missing from the response). -/
def bulkPrice (up : Upstream) (net : String) (queried : List String)
    (a : String) : Option Rat :=
  match up.onchainMulti net queried with
  | some resp => objGet resp a
  | none => none

/-- What the fallback tier would record for one address: its mapped id's
simple price, if the id exists, the call succeeds and the price is
truthy. -/
def fbPrice (up : Upstream) (knownTokens : List (String × String))
    (a : String) : Option Rat :=
  match objGet knownTokens a with
  | some tokenId =>
      match up.simplePrice tokenId with
      | some usd => if usd ≠ 0 then some usd else none
      | none => none
  | none => none

/-- Reassembly of `getTokenPrices up now [] l net` from the stage
definitions; proved equal to the function below. -/
def tpResult (up : Upstream) (now : Nat) (l : List String) (net : String) :
    Res PriceMap :=
  if l.isEmpty then ⟨[], [], []⟩
  else if (validOf l).isEmpty then ⟨[], [], []⟩
  else if (nonStableOf l net).isEmpty then
    ⟨stableMapOf l net,
      [(priceKey l, ⟨.prices (stableMapOf l net), now⟩)], []⟩
  else
    let fb :=
      if (unmappedOf up l net).isEmpty then (bulkMapOf up l net, [])
      else fallbackLoop up (TokenRegistry.getKnownTokenMapping net)
        (unmappedOf up l net) (bulkMapOf up l net)
    ⟨fb.1,
      if fb.1.isEmpty then [] else [(priceKey l, ⟨.prices fb.1, now⟩)],
      .onchainMulti net (nonStableOf l net) :: fb.2⟩

/-- A small successful upstream world used by concrete witnesses: the bulk
onchain endpoint prices every queried address at 5, the simple-price
endpoint answers 2. -/
def succeedingUpstream : Upstream where
  onchainMulti := fun _ addrs => some (addrs.map (fun a => (a, (5 : Rat))))
  simplePrice := fun _ => some 2
  onchainToken := fun _ _ => none
  coinsDetail := fun _ => none

/-- Oracle for the C10 witness, first scenario: the bulk tier answers a
price string that parses to `0` for every address, the fallback answers
`7`. -/
def zeroBulkUpstream : Upstream where
  onchainMulti := fun _ addrs => some (addrs.map (fun a => (a, (0 : Rat))))
  simplePrice := fun _ => some 7
  onchainToken := fun _ _ => none
  coinsDetail := fun _ => none

/-- Oracle for the C10 witness, second scenario: the bulk tier returns an
ok-but-empty payload and the fallback answers an untruthy `0`. -/
def zeroFallbackUpstream : Upstream where
  onchainMulti := fun _ _ => some []
  simplePrice := fun _ => some 0
  onchainToken := fun _ _ => none
  coinsDetail := fun _ => none

/-- Oracle for the C6 witness: the bulk endpoint fails exactly for the
chunk `["tb"]` and prices everything else at 5. -/
def midFailUpstream : Upstream where
  onchainMulti := fun _ addrs =>
    if addrs = ["tb"] then none
    else some (addrs.map (fun a => (a, (5 : Rat))))
  simplePrice := fun _ => none
  onchainToken := fun _ _ => none
  coinsDetail := fun _ => none

/-- An upstream world that knows prices only on the Solana network: the
bulk endpoint prices every address at 100 there and fails on every other
network. -/
def solanaOnlyUpstream : Upstream where
  onchainMulti := fun network addrs =>
    if network = "solana" then some (addrs.map (fun a => (a, (100 : Rat))))
    else none
  simplePrice := fun _ => none
  onchainToken := fun _ _ => none
  coinsDetail := fun _ => none

/-! ## Lemmas on the JS-object primitives -/

theorem objGet_nil {β : Type} (k : String) : objGet ([] : List (String × β)) k = none := rfl

theorem find?_map_replace_self {β : Type} (k : String) (v : β) :
    ∀ t : List (String × β),
      (t.map (fun p => if p.1 = k then (k, v) else p)).find?
          (fun p => p.1 = k) =
        if t.any (fun p => p.1 = k) then some (k, v) else none
  | [] => rfl
  | p :: t => by
    by_cases hp : p.1 = k
    · rw [List.map_cons, if_pos hp, List.find?_cons_of_pos _ (by simp),
        List.any_cons, if_pos (by simp [hp])]
    · rw [List.map_cons, if_neg hp, List.find?_cons_of_neg _ (by simp [hp]),
        find?_map_replace_self k v t, List.any_cons,
        show (decide (p.1 = k)) = false from by simp [hp], Bool.false_or]

theorem find?_map_replace_ne {β : Type} (k k' : String) (v : β) (h : k' ≠ k) :
    ∀ t : List (String × β),
      (t.map (fun p => if p.1 = k then (k, v) else p)).find?
          (fun p => p.1 = k') =
        t.find? (fun p => p.1 = k')
  | [] => rfl
  | p :: t => by
    by_cases hp : p.1 = k
    · rw [List.map_cons, if_pos hp, List.find?_cons_of_neg _ (by simp [Ne.symm h]),
        find?_map_replace_ne k k' v h t,
        List.find?_cons_of_neg _ (by simp [hp, Ne.symm h])]
    · by_cases hp' : p.1 = k'
      · rw [List.map_cons, if_neg hp, List.find?_cons_of_pos _ (by simp [hp']),
          List.find?_cons_of_pos _ (by simp [hp'])]
      · rw [List.map_cons, if_neg hp, List.find?_cons_of_neg _ (by simp [hp']),
          List.find?_cons_of_neg _ (by simp [hp']),
          find?_map_replace_ne k k' v h t]

theorem find?_append_self {β : Type} (k : String) (v : β) :
    ∀ t : List (String × β), t.any (fun p => p.1 = k) = false →
      (t ++ [(k, v)]).find? (fun p => p.1 = k) = some (k, v)
  | [], _ => by rw [List.nil_append, List.find?_cons_of_pos _ (by simp)]
  | p :: t, h => by
    simp only [List.any_cons, Bool.or_eq_false_iff, decide_eq_false_iff_not] at h
    rw [List.cons_append, List.find?_cons_of_neg _ (by simp [h.1]),
      find?_append_self k v t (by simp [h.2])]

theorem find?_append_ne {β : Type} (k k' : String) (v : β) (h : k' ≠ k) :
    ∀ t : List (String × β),
      (t ++ [(k, v)]).find? (fun p => p.1 = k') = t.find? (fun p => p.1 = k')
  | [] => by
    rw [List.nil_append, List.find?_cons_of_neg _ (by simp [Ne.symm h])]
  | p :: t => by
    by_cases hp : p.1 = k'
    · rw [List.cons_append, List.find?_cons_of_pos _ (by simp [hp]),
        List.find?_cons_of_pos _ (by simp [hp])]
    · rw [List.cons_append, List.find?_cons_of_neg _ (by simp [hp]),
        List.find?_cons_of_neg _ (by simp [hp]), find?_append_ne k k' v h t]

theorem objGet_objSet_self {β : Type} (m : List (String × β)) (k : String) (v : β) :
    objGet (objSet m k v) k = some v := by
  unfold objSet objGet
  split
  · rename_i h
    rw [find?_map_replace_self k v m, if_pos h]
    rfl
  · rename_i h
    rw [find?_append_self k v m (Bool.eq_false_iff.mpr h)]
    rfl

theorem objGet_objSet_ne {β : Type} (m : List (String × β)) (k k' : String) (v : β)
    (h : k' ≠ k) : objGet (objSet m k v) k' = objGet m k' := by
  unfold objSet objGet
  split
  · rw [find?_map_replace_ne k k' v h m]
  · rw [find?_append_ne k k' v h m]

theorem objSet_ne_nil {β : Type} (m : List (String × β)) (k : String) (v : β) :
    objSet m k v ≠ [] := by
  unfold objSet
  split
  · rename_i h
    cases m with
    | nil => simp at h
    | cons p t => simp
  · simp

theorem getCachedData_nil (now : Nat) (k : String) :
    getCachedData [] now k = (none, []) := rfl

theorem setCachedData_nil (now : Nat) (k : String) (v : CacheVal) :
    setCachedData [] now k v = [(k, ⟨v, now⟩)] := rfl

theorem getCachedData_single_live (now ts : Nat) (k : String) (e : CacheEntry)
    (h : now - ts < cacheTimeout) (hts : e.timestamp = ts) :
    getCachedData [(k, e)] now k = (some e.data, [(k, e)]) := by
  unfold getCachedData
  simp [objGet, List.find?, hts, h]

/-! ## Characterizations of the three resolution loops -/

theorem objGet_stableLoop (stab : List String) :
    ∀ (addrs : List String) (m : PriceMap) (a : String),
      objGet (stableLoop stab addrs m) a =
        if a ∈ addrs ∧ stab.contains a = true then some 1 else objGet m a
  | [], m, a => by simp [stableLoop]
  | addr :: t, m, a => by
    show objGet (stableLoop stab t
      (if stab.contains addr then objSet m addr 1 else m)) a = _
    rw [objGet_stableLoop stab t _ a]
    by_cases hat : a ∈ t ∧ stab.contains a = true
    · rw [if_pos hat, if_pos ⟨List.mem_cons_of_mem _ hat.1, hat.2⟩]
    · rw [if_neg hat]
      by_cases ha : a = addr
      · subst ha
        by_cases hs : stab.contains a = true
        · rw [if_pos hs, objGet_objSet_self, if_pos ⟨List.mem_cons_self _ _, hs⟩]
        · rw [if_neg (by simpa using hs),
            if_neg (fun hc => hs hc.2)]
      · have hmem : (a ∈ addr :: t ∧ stab.contains a = true) ↔
            (a ∈ t ∧ stab.contains a = true) := by
          constructor
          · rintro ⟨hm, hc⟩
            exact ⟨(List.mem_cons.mp hm).resolve_left ha, hc⟩
          · rintro ⟨hm, hc⟩
            exact ⟨List.mem_cons_of_mem _ hm, hc⟩
        rw [if_neg (fun hc => hat (hmem.mp hc))]
        by_cases hs : stab.contains addr = true
        · rw [if_pos hs, objGet_objSet_ne m addr a 1 ha]
        · rw [if_neg (by simpa using hs)]

theorem objGet_onchainLoop (resp : List (String × Rat)) :
    ∀ (addrs : List String) (m : PriceMap) (a : String),
      objGet (onchainLoop resp addrs m) a =
        (if a ∈ addrs then objGet resp a else none).or (objGet m a)
  | [], m, a => by simp [onchainLoop]
  | addr :: t, m, a => by
    show objGet (onchainLoop resp t
      (match objGet resp addr with
       | some p => objSet m addr p
       | none => m)) a = _
    rw [objGet_onchainLoop resp t _ a]
    by_cases ha : a = addr
    · subst ha
      cases hr : objGet resp a with
      | some p =>
        simp only [hr, if_pos (List.mem_cons_self a t)]
        by_cases hat : a ∈ t
        · simp only [if_pos hat, hr, objGet_objSet_self]
          rfl
        · simp only [if_neg hat, Option.none_or, objGet_objSet_self]
          rfl
      | none =>
        simp only [hr, if_pos (List.mem_cons_self a t)]
        by_cases hat : a ∈ t
        · simp only [if_pos hat, hr]
        · simp only [if_neg hat, hr, Option.none_or]
    · have hmem : a ∈ addr :: t ↔ a ∈ t := by
        simp [List.mem_cons, ha]
      cases hr : objGet resp addr with
      | some p =>
        rw [objGet_objSet_ne m addr a p ha]
        by_cases hat : a ∈ t
        · rw [if_pos hat, if_pos (hmem.mpr hat)]
        · rw [if_neg hat, if_neg (fun hc => hat (hmem.mp hc))]
      | none =>
        by_cases hat : a ∈ t
        · rw [if_pos hat, if_pos (hmem.mpr hat)]
        · rw [if_neg hat, if_neg (fun hc => hat (hmem.mp hc))]

theorem fbStep_shift (up : Upstream) (kt : List (String × String))
    (m : PriceMap) (cs : List UpstreamCall) (a : String) :
    fbStep up kt (m, cs) a =
      ((fbStep up kt (m, []) a).1, cs ++ (fbStep up kt (m, []) a).2) := by
  cases hkt : objGet kt a with
  | some tokenId =>
    cases hsp : up.simplePrice tokenId with
    | some usd => by_cases h : usd = 0 <;> simp [fbStep, hkt, hsp, h]
    | none => simp [fbStep, hkt, hsp]
  | none => simp [fbStep, hkt]

theorem foldl_fbStep_shift (up : Upstream) (kt : List (String × String)) :
    ∀ (t : List String) (m : PriceMap) (cs : List UpstreamCall),
      t.foldl (fbStep up kt) (m, cs) =
        ((t.foldl (fbStep up kt) (m, [])).1,
          cs ++ (t.foldl (fbStep up kt) (m, [])).2)
  | [], m, cs => by simp
  | a :: t, m, cs => by
    rw [List.foldl_cons, List.foldl_cons, fbStep_shift up kt m cs a,
      fbStep_shift up kt m [] a, List.nil_append,
      foldl_fbStep_shift up kt t (fbStep up kt (m, []) a).1
        (cs ++ (fbStep up kt (m, []) a).2),
      foldl_fbStep_shift up kt t (fbStep up kt (m, []) a).1
        (fbStep up kt (m, []) a).2,
      List.append_assoc]

theorem fallbackLoop_calls (up : Upstream) (kt : List (String × String)) :
    ∀ (addrs : List String) (m : PriceMap),
      (fallbackLoop up kt addrs m).2 =
        addrs.filterMap (fun a => (objGet kt a).map UpstreamCall.simplePrice)
  | [], m => rfl
  | a :: t, m => by
    unfold fallbackLoop
    rw [List.foldl_cons, foldl_fbStep_shift up kt t, List.filterMap_cons]
    show (fbStep up kt (m, []) a).2 ++ (fallbackLoop up kt t (fbStep up kt (m, []) a).1).2 = _
    rw [fallbackLoop_calls up kt t]
    cases hkt : objGet kt a with
    | some tokenId =>
      cases hsp : up.simplePrice tokenId with
      | some usd => by_cases h : usd = 0 <;> simp [fbStep, hkt, hsp, h]
      | none => simp [fbStep, hkt, hsp]
    | none => simp [fbStep, hkt]

theorem objGet_fallbackLoop (up : Upstream) (kt : List (String × String)) :
    ∀ (addrs : List String) (m : PriceMap) (a : String),
      objGet (fallbackLoop up kt addrs m).1 a =
        (if a ∈ addrs then fbPrice up kt a else none).or (objGet m a)
  | [], m, a => by simp [fallbackLoop]
  | addr :: t, m, a => by
    unfold fallbackLoop
    rw [List.foldl_cons, foldl_fbStep_shift up kt t]
    show objGet (fallbackLoop up kt t (fbStep up kt (m, []) addr).1).1 a = _
    rw [objGet_fallbackLoop up kt t _ a]
    have hstep : objGet (fbStep up kt (m, []) addr).1 a =
        (if a = addr then fbPrice up kt addr else none).or (objGet m a) := by
      cases hkt : objGet kt addr with
      | some tokenId =>
        cases hsp : up.simplePrice tokenId with
        | some usd =>
          simp only [fbStep, fbPrice, hkt, hsp]
          by_cases h : usd ≠ 0
          · rw [if_pos h]
            by_cases ha : a = addr
            · subst ha
              rw [if_pos rfl, if_pos h]
              show objGet (objSet m a usd) a = (some usd).or (objGet m a)
              rw [objGet_objSet_self]
              rfl
            · rw [if_neg ha]
              show objGet (objSet m addr usd) a = Option.none.or (objGet m a)
              rw [objGet_objSet_ne m addr a usd ha, Option.none_or]
          · rw [if_neg h]
            by_cases ha : a = addr
            · subst ha
              rw [if_pos rfl, if_neg h]
              show objGet m a = Option.none.or (objGet m a)
              rw [Option.none_or]
            · rw [if_neg ha]
              show objGet m a = Option.none.or (objGet m a)
              rw [Option.none_or]
        | none =>
          by_cases ha : a = addr <;>
            simp [fbStep, fbPrice, hkt, hsp, ha]
      | none =>
        by_cases ha : a = addr <;>
          simp [fbStep, fbPrice, hkt, ha]
    rw [hstep]
    by_cases ha : a = addr
    · subst ha
      rw [if_pos rfl, if_pos (List.mem_cons_self _ _)]
      by_cases hat : a ∈ t
      · rw [if_pos hat, ← Option.or_assoc]
        cases hfb : fbPrice up kt a <;> rfl
      · rw [if_neg hat, Option.none_or]
    · rw [if_neg ha, Option.none_or]
      have hmem : a ∈ addr :: t ↔ a ∈ t := by simp [List.mem_cons, ha]
      by_cases hat : a ∈ t
      · rw [if_pos hat, if_pos (hmem.mpr hat)]
      · rw [if_neg hat, if_neg (fun hc => hat (hmem.mp hc))]

/-- With every upstream call failing, the fallback loop records nothing. -/
theorem fallbackLoop_failing (kt : List (String × String)) :
    ∀ (addrs : List String) (m : PriceMap),
      (fallbackLoop failingUpstream kt addrs m).1 = m
  | [], m => rfl
  | a :: t, m => by
    unfold fallbackLoop
    rw [List.foldl_cons, foldl_fbStep_shift failingUpstream kt t]
    show (fallbackLoop failingUpstream kt t (fbStep failingUpstream kt (m, []) a).1).1 = m
    rw [show (fbStep failingUpstream kt (m, []) a).1 = m from by
      cases hkt : objGet kt a <;> simp [fbStep, hkt, failingUpstream]]
    exact fallbackLoop_failing kt t m

/-- Addresses not in the stablecoin set leave the stablecoin loop's map
unchanged. -/
theorem stableLoop_of_no_stable (stab : List String) :
    ∀ (addrs : List String) (m : PriceMap),
      (∀ a ∈ addrs, stab.contains a = false) →
      stableLoop stab addrs m = m
  | [], m, _ => rfl
  | addr :: t, m, h => by
    show stableLoop stab t (if stab.contains addr then objSet m addr 1 else m) = m
    rw [if_neg (by rw [h addr (List.mem_cons_self _ _)]; simp)]
    exact stableLoop_of_no_stable stab t m
      (fun a ha => h a (List.mem_cons_of_mem _ ha))

theorem mem_insertSorted (a b : String) :
    ∀ l : List String, a ∈ insertSorted b l ↔ a = b ∨ a ∈ l
  | [] => by simp [insertSorted]
  | c :: t => by
    unfold insertSorted
    by_cases h : strLe b c
    · simp [h]
    · simp only [if_neg h, List.mem_cons, mem_insertSorted a b t]
      tauto

theorem mem_sortStrings (a : String) :
    ∀ l : List String, a ∈ sortStrings l ↔ a ∈ l
  | [] => Iff.rfl
  | b :: t => by
    unfold sortStrings
    rw [mem_insertSorted, mem_sortStrings a t, List.mem_cons]

theorem mem_validOf (a : String) (l : List String) :
    a ∈ validOf l ↔ a ∈ l ∧ a ≠ "" := by
  unfold validOf
  rw [List.mem_filter, mem_sortStrings]
  simp

/-! ## Branch-by-branch evaluation of `getTokenPrices` from an empty
cache -/


theorem getTokenPrices_empty_cache (up : Upstream) (now : Nat)
    (l : List String) (net : String) :
    getTokenPrices up now [] l net = tpResult up now l net := rfl

theorem getTokenPrices_nil (up : Upstream) (now : Nat) (cache : Cache)
    (net : String) : getTokenPrices up now cache [] net = ⟨[], cache, []⟩ := rfl

theorem validOf_ne_nil (l : List String) (net : String)
    (hns : nonStableOf l net ≠ []) : validOf l ≠ [] := by
  intro hv
  exact hns (by unfold nonStableOf; rw [hv]; rfl)

theorem l_ne_nil (l : List String) (hv : validOf l ≠ []) : l ≠ [] := by
  intro hl
  exact hv (by unfold validOf; rw [hl]; rfl)

theorem getTokenPrices_main (up : Upstream) (now : Nat) (l : List String)
    (net : String) (hns : nonStableOf l net ≠ []) :
    getTokenPrices up now [] l net =
      (let fb :=
        if (unmappedOf up l net).isEmpty then (bulkMapOf up l net, [])
        else fallbackLoop up (TokenRegistry.getKnownTokenMapping net)
          (unmappedOf up l net) (bulkMapOf up l net)
      ⟨fb.1,
        if fb.1.isEmpty then [] else [(priceKey l, ⟨.prices fb.1, now⟩)],
        .onchainMulti net (nonStableOf l net) :: fb.2⟩) := by
  have hv := validOf_ne_nil l net hns
  have hl := l_ne_nil l hv
  rw [getTokenPrices_empty_cache]
  unfold tpResult
  rw [if_neg (by simp [hl]), if_neg (by simp [hv]), if_neg (by simp [hns])]

theorem getTokenPrices_allStable (up : Upstream) (now : Nat)
    (l : List String) (net : String) (hv : validOf l ≠ [])
    (hns : nonStableOf l net = []) :
    getTokenPrices up now [] l net =
      ⟨stableMapOf l net,
        [(priceKey l, ⟨.prices (stableMapOf l net), now⟩)], []⟩ := by
  have hl := l_ne_nil l hv
  rw [getTokenPrices_empty_cache]
  unfold tpResult
  rw [if_neg (by simp [hl]), if_neg (by simp [hv]), if_pos (by simp [hns])]

/-- On a non-empty all-stablecoin valid set the stable map is non-empty. -/
theorem stableMapOf_ne_nil (l : List String) (net : String)
    (hv : validOf l ≠ []) (hns : nonStableOf l net = []) :
    stableMapOf l net ≠ [] := by
  rcases hval : validOf l with _ | ⟨a, rest⟩
  · exact absurd hval hv
  · have ha : a ∈ validOf l := by rw [hval]; exact List.mem_cons_self _ _
    have hstab : (TokenRegistry.getStablecoinAddresses net).contains a = true := by
      by_contra hc
      have : a ∈ nonStableOf l net := by
        unfold nonStableOf
        rw [List.mem_filter]
        exact ⟨ha, by simpa using hc⟩
      rw [hns] at this
      exact absurd this (List.not_mem_nil a)
    have : objGet (stableMapOf l net) a = some 1 := by
      unfold stableMapOf
      rw [objGet_stableLoop, if_pos ⟨ha, hstab⟩]
    intro hnil
    rw [hnil] at this
    exact absurd this (by simp [objGet_nil])

/-- From an empty cache, `getTokenPrices` stores exactly one entry — under
its own key, holding the returned map — when that map is non-empty, and
stores nothing on an empty result. -/
theorem getTokenPrices_cache_shape (up : Upstream) (now : Nat)
    (l : List String) (net : String) :
    (getTokenPrices up now [] l net).cache =
      if (getTokenPrices up now [] l net).val.isEmpty then []
      else [(priceKey l,
        ⟨.prices (getTokenPrices up now [] l net).val, now⟩)] := by
  by_cases hl : l = []
  · subst hl; rfl
  · by_cases hv : validOf l = []
    · rw [getTokenPrices_empty_cache]
      unfold tpResult
      rw [if_neg (by simp [hl]), if_pos (by simp [hv])]
      rfl
    · by_cases hns : nonStableOf l net = []
      · rw [getTokenPrices_allStable up now l net hv hns]
        have h2 : (stableMapOf l net).isEmpty = false := by
          cases h : stableMapOf l net with
          | nil => exact absurd h (stableMapOf_ne_nil l net hv hns)
          | cons a t => rfl
        show [(priceKey l, CacheEntry.mk (CacheVal.prices (stableMapOf l net)) now)] =
          if (stableMapOf l net).isEmpty = true then []
          else [(priceKey l, CacheEntry.mk (CacheVal.prices (stableMapOf l net)) now)]
        rw [h2]
        rfl
      · rw [getTokenPrices_main up now l net hns]

/-- A live `prices_…` entry short-circuits `getTokenPrices`: it returns
the stored map, leaves the cache untouched and issues no upstream call. -/
theorem getTokenPrices_cache_hit (up : Upstream) (now ts : Nat)
    (cache : Cache) (l : List String) (net : String) (m : PriceMap)
    (hl : l.isEmpty = false)
    (hget : objGet cache (priceKey l) = some ⟨.prices m, ts⟩)
    (httl : now - ts < cacheTimeout) :
    getTokenPrices up now cache l net = ⟨m, cache, []⟩ := by
  unfold priceKey at hget
  unfold getTokenPrices getCachedData
  rw [hl]
  simp only [Bool.false_eq_true, if_false, hget, httl, if_pos httl]
  rfl

/-! ## Registry facts -/

theorem networkTokens_eq_none_of_unsupported (net : String)
    (h : TokenRegistry.isNetworkSupported net = false) :
    TokenRegistry.networkTokens (toLowerStr net) = none := by
  unfold TokenRegistry.isNetworkSupported at h
  cases hx : TokenRegistry.networkTokens (toLowerStr net) with
  | none => rfl
  | some t => rw [hx] at h; simp at h

/-- Every registry stablecoin address is a non-blank string. -/
theorem mem_stablecoins_ne_empty (net a : String)
    (ha : a ∈ TokenRegistry.getStablecoinAddresses net) : a ≠ "" := by
  unfold TokenRegistry.getStablecoinAddresses TokenRegistry.networkTokens at ha
  split_ifs at ha <;>
    first
    | (simp only [TokenRegistry.solanaTokens, TokenRegistry.ethereumTokens,
        TokenRegistry.polygonTokens, TokenRegistry.baseTokens,
        List.mem_cons, List.not_mem_nil, or_false] at ha
       rcases ha with rfl | rfl <;> decide)
    | simp at ha

theorem contains_iff_mem (l : List String) (a : String) :
    l.contains a = true ↔ a ∈ l := by
  simp [List.contains_iff_exists_mem_beq, beq_iff_eq]

theorem objGet_singleton_self {β : Type} (k : String) (e : β) :
    objGet [(k, e)] k = some e := by
  unfold objGet
  rw [List.find?_cons_of_pos _ (by simp)]
  rfl

/-! ## Claim theorems -/

/-- C3: For every non-empty address list whose every element is a registry
stablecoin of the given network, `getTokenPrices` returns a map assigning
exactly `1.0` to each address and performs zero upstream calls. -/
theorem getTokenPrices_all_stablecoins (up : Upstream) (now : Nat)
    (l : List String) (net : String) (hl : l ≠ [])
    (hall : ∀ a ∈ l, a ∈ TokenRegistry.getStablecoinAddresses net) :
    (∀ a ∈ l, objGet (getTokenPrices up now [] l net).val a = some 1) ∧
      (getTokenPrices up now [] l net).calls = [] := by
  have hvalid : ∀ a ∈ l, a ∈ validOf l := by
    intro a ha
    exact (mem_validOf a l).mpr ⟨ha, mem_stablecoins_ne_empty net a (hall a ha)⟩
  have hv : validOf l ≠ [] := by
    rcases l with _ | ⟨a, rest⟩
    · exact absurd rfl hl
    · intro hnil
      have := hvalid a (List.mem_cons_self _ _)
      rw [hnil] at this
      exact absurd this (List.not_mem_nil a)
  have hns : nonStableOf l net = [] := by
    unfold nonStableOf
    rw [List.filter_eq_nil_iff]
    intro a ha
    have : a ∈ l := ((mem_validOf a l).mp ha).1
    simpa using hall a this
  rw [getTokenPrices_allStable up now l net hv hns]
  refine ⟨fun a ha => ?_, rfl⟩
  show objGet (stableMapOf l net) a = some 1
  unfold stableMapOf
  rw [objGet_stableLoop, if_pos
    ⟨hvalid a ha, (contains_iff_mem _ a).mpr (hall a ha)⟩]

/-- Witness for C3 at a concrete input: the two Solana registry
stablecoins, with a failing upstream and an empty cache. -/
theorem getTokenPrices_all_stablecoins_witness :
    (∀ a ∈ ["EPjFWdd5AufqSSqeM2qN1xzybapC8G4wEGGkZwyTDt1v",
        "Es9vMFrzaCERmJfrF4H2FYD4KCoNkY11McCe8BenwNYB"],
      objGet (getTokenPrices failingUpstream 0 []
        ["EPjFWdd5AufqSSqeM2qN1xzybapC8G4wEGGkZwyTDt1v",
         "Es9vMFrzaCERmJfrF4H2FYD4KCoNkY11McCe8BenwNYB"] "solana").val a =
        some 1) ∧
    (getTokenPrices failingUpstream 0 []
      ["EPjFWdd5AufqSSqeM2qN1xzybapC8G4wEGGkZwyTDt1v",
       "Es9vMFrzaCERmJfrF4H2FYD4KCoNkY11McCe8BenwNYB"] "solana").calls = [] :=
  getTokenPrices_all_stablecoins failingUpstream 0 _ "solana"
    (by decide) (by decide)

/-- C4: a second `getTokenPrices` call with the same address list and
network, within the TTL of a first call that resolved a non-empty map,
returns that same map, leaves the cache unchanged and issues no upstream
call. -/
theorem getTokenPrices_idempotent (up : Upstream) (now₁ now₂ : Nat)
    (l : List String) (net : String)
    (httl : now₂ - now₁ < cacheTimeout)
    (hne : (getTokenPrices up now₁ [] l net).val ≠ []) :
    getTokenPrices up now₂ (getTokenPrices up now₁ [] l net).cache l net =
      ⟨(getTokenPrices up now₁ [] l net).val,
        (getTokenPrices up now₁ [] l net).cache, []⟩ := by
  have hl : l.isEmpty = false := by
    rcases l with _ | _
    · exact absurd rfl hne
    · rfl
  have hval : (getTokenPrices up now₁ [] l net).val.isEmpty = false := by
    cases h : (getTokenPrices up now₁ [] l net).val with
    | nil => exact absurd h hne
    | cons a t => rfl
  have hshape := getTokenPrices_cache_shape up now₁ l net
  rw [hval] at hshape
  simp only [Bool.false_eq_true, if_false] at hshape
  exact getTokenPrices_cache_hit up now₂ now₁ _ l net _ hl
    (by rw [hshape]; exact objGet_singleton_self _ _) httl


/-- Witness for C4 at a concrete input. -/
theorem getTokenPrices_idempotent_witness :
    getTokenPrices succeedingUpstream 59999
        (getTokenPrices succeedingUpstream 0 [] ["tokX"] "solana").cache
        ["tokX"] "solana" =
      ⟨(getTokenPrices succeedingUpstream 0 [] ["tokX"] "solana").val,
        (getTokenPrices succeedingUpstream 0 [] ["tokX"] "solana").cache,
        []⟩ :=
  getTokenPrices_idempotent succeedingUpstream 0 59999 ["tokX"] "solana"
    (by decide) (by decide)

/-- With every upstream call failing, `getTokenPrices` still returns
exactly what the stablecoin tier resolved. -/
theorem getTokenPrices_failing_val (now : Nat) (l : List String)
    (net : String) :
    (getTokenPrices failingUpstream now [] l net).val = stableMapOf l net := by
  by_cases hl : l = []
  · subst hl; rfl
  · by_cases hv : validOf l = []
    · rw [getTokenPrices_empty_cache]
      unfold tpResult
      rw [if_neg (by simp [hl]), if_pos (by simp [hv])]
      show ([] : PriceMap) = stableMapOf l net
      unfold stableMapOf
      rw [hv]
      rfl
    · by_cases hns : nonStableOf l net = []
      · rw [getTokenPrices_allStable failingUpstream now l net hv hns]
      · rw [getTokenPrices_main failingUpstream now l net hns]
        show (if (unmappedOf failingUpstream l net).isEmpty
            then (bulkMapOf failingUpstream l net, ([] : List UpstreamCall))
            else fallbackLoop failingUpstream
              (TokenRegistry.getKnownTokenMapping net)
              (unmappedOf failingUpstream l net)
              (bulkMapOf failingUpstream l net)).1 = stableMapOf l net
        by_cases hu : (unmappedOf failingUpstream l net).isEmpty = true
        · rw [if_pos hu]
          rfl
        · rw [if_neg hu]
          rw [fallbackLoop_failing]
          rfl

/-- `isStablecoin` is the `contains` test on the registry list. -/
theorem isStablecoin_eq (a net : String) :
    TokenRegistry.isStablecoin a net =
      (TokenRegistry.getStablecoinAddresses net).contains a := rfl

/-- With every upstream call failing and no stablecoin in the list, the
result map is empty. -/
theorem getTokenPrices_failing_empty (now : Nat) (l : List String)
    (net : String)
    (hstab : ∀ x ∈ l, TokenRegistry.isStablecoin x net = false) :
    (getTokenPrices failingUpstream now [] l net).val = [] := by
  rw [getTokenPrices_failing_val]
  unfold stableMapOf
  exact stableLoop_of_no_stable _ _ _ (fun a ha => by
    rw [← isStablecoin_eq]
    exact hstab a ((mem_validOf a l).mp ha).1)

/-- `getTokenPrice` under total upstream failure returns `0` for a
non-stablecoin address. -/
theorem getTokenPrice_failing (now : Nat) (a net : String)
    (hastab : TokenRegistry.isStablecoin a net = false) :
    (getTokenPrice failingUpstream now [] a net).val = 0 := by
  have h2 : (getTokenPrices failingUpstream now [] [a] net).val = [] :=
    getTokenPrices_failing_empty now [a] net
      (by intro x hx; rw [List.mem_singleton] at hx; subst hx; exact hastab)
  show (objGet (getTokenPrices failingUpstream now [] [a] net).val a).getD 0 = 0
  rw [h2]
  rfl

/-- `getSolanaPrice` under total upstream failure returns `0`. -/
theorem getSolanaPrice_failing (now : Nat) :
    (getSolanaPrice failingUpstream now []).val = 0 := rfl

theorem failingUpstream_onchainToken (net a : String) :
    failingUpstream.onchainToken net a = none := rfl

theorem failingUpstream_coinsDetail (id : String) :
    failingUpstream.coinsDetail id = none := rfl

/-- `getTokenData` under total upstream failure returns `null` for a
non-stablecoin address. -/
theorem getTokenData_failing (now : Nat) (a net : String)
    (hastab : TokenRegistry.isStablecoin a net = false) :
    (getTokenData failingUpstream now [] a net).val = none := by
  by_cases haempty : a = ""
  · subst haempty; rfl
  · have hprice : (getTokenPrice failingUpstream now [] a net).val = 0 :=
      getTokenPrice_failing now a net hastab
    unfold getTokenData
    rw [if_neg haempty]
    simp only [getCachedData_nil, Option.filter_none, hastab,
      Bool.false_eq_true, if_false, failingUpstream_onchainToken]
    unfold getTokenDataCoinsTier
    cases hid : TokenRegistry.getCoinGeckoId a net with
    | some coingeckoId =>
        simp only [hid, failingUpstream_coinsDetail, getTokenDataPriceTier,
          hprice, gt_iff_lt, lt_self_iff_false, if_false]
    | none =>
        simp only [hid, getTokenDataPriceTier, hprice, gt_iff_lt,
          lt_self_iff_false, if_false]

/-- C2: every upstream failure is absorbed.  An empty input list
short-circuits (empty map, untouched cache, no calls, for any oracle and
cache); under total upstream failure `getTokenPrices` returns exactly
what the stablecoin tier resolved — the empty map when no address is a
registry stablecoin — and `getTokenPrice`, `getSolanaPrice`,
`getTokenData` return their "no data" terminal values `0`, `0`, `null`. -/
theorem coinGecko_no_throw_terminals (up : Upstream) (now : Nat)
    (cache : Cache) (l : List String) (a net : String)
    (hstab : ∀ x ∈ l, TokenRegistry.isStablecoin x net = false)
    (hastab : TokenRegistry.isStablecoin a net = false) :
    getTokenPrices up now cache [] net = ⟨[], cache, []⟩ ∧
    (getTokenPrices failingUpstream now [] l net).val = stableMapOf l net ∧
    (getTokenPrices failingUpstream now [] l net).val = [] ∧
    (getTokenPrice failingUpstream now [] a net).val = 0 ∧
    (getSolanaPrice failingUpstream now []).val = 0 ∧
    (getTokenData failingUpstream now [] a net).val = none :=
  ⟨rfl, getTokenPrices_failing_val now l net,
    getTokenPrices_failing_empty now l net hstab,
    getTokenPrice_failing now a net hastab,
    getSolanaPrice_failing now,
    getTokenData_failing now a net hastab⟩

/-- Witness for C2 at a concrete input. -/
theorem coinGecko_no_throw_terminals_witness :
    getTokenPrices failingUpstream 0 [] [] "solana" = ⟨[], [], []⟩ ∧
    (getTokenPrices failingUpstream 0 [] ["tokX"] "solana").val =
      stableMapOf ["tokX"] "solana" ∧
    (getTokenPrices failingUpstream 0 [] ["tokX"] "solana").val = [] ∧
    (getTokenPrice failingUpstream 0 [] "tokX" "solana").val = 0 ∧
    (getSolanaPrice failingUpstream 0 []).val = 0 ∧
    (getTokenData failingUpstream 0 [] "tokX" "solana").val = none :=
  coinGecko_no_throw_terminals failingUpstream 0 [] ["tokX"] "tokX" "solana"
    (by decide) (by decide)

/-! ## Pointwise characterization of the tiers -/

theorem objGet_stableMapOf (l : List String) (net : String) (a : String)
    (hav : a ∈ validOf l) :
    objGet (stableMapOf l net) a =
      if (TokenRegistry.getStablecoinAddresses net).contains a = true
      then some 1 else none := by
  unfold stableMapOf
  rw [objGet_stableLoop]
  by_cases hc : (TokenRegistry.getStablecoinAddresses net).contains a = true
  · rw [if_pos ⟨hav, hc⟩, if_pos hc]
  · rw [if_neg (fun h => hc h.2), if_neg hc]
    rfl

theorem objGet_bulkMapOf (up : Upstream) (l : List String) (net : String)
    (a : String) (hav : a ∈ validOf l) :
    objGet (bulkMapOf up l net) a =
      (if a ∈ nonStableOf l net
        then bulkPrice up net (nonStableOf l net) a else none).or
        (if (TokenRegistry.getStablecoinAddresses net).contains a = true
          then some 1 else none) := by
  unfold bulkMapOf bulkPrice
  cases hr : up.onchainMulti net (nonStableOf l net) with
  | some resp =>
      rw [objGet_onchainLoop, objGet_stableMapOf l net a hav]
  | none =>
      rw [objGet_stableMapOf l net a hav]
      by_cases hn : a ∈ nonStableOf l net <;> simp [hn]

/-- The returned map of the main branch, pointwise: the fallback tier's
answer, else the bulk tier's answer, else the stablecoin tier's. -/
theorem objGet_getTokenPrices_main (up : Upstream) (now : Nat)
    (l : List String) (net : String) (a : String)
    (hns : nonStableOf l net ≠ []) :
    objGet (getTokenPrices up now [] l net).val a =
      (if a ∈ unmappedOf up l net
        then fbPrice up (TokenRegistry.getKnownTokenMapping net) a
        else none).or (objGet (bulkMapOf up l net) a) := by
  rw [getTokenPrices_main up now l net hns]
  show objGet (if (unmappedOf up l net).isEmpty
      then (bulkMapOf up l net, ([] : List UpstreamCall))
      else fallbackLoop up (TokenRegistry.getKnownTokenMapping net)
        (unmappedOf up l net) (bulkMapOf up l net)).1 a = _
  by_cases hu : (unmappedOf up l net).isEmpty = true
  · rw [if_pos hu]
    have h0 : unmappedOf up l net = [] := by
      cases h : unmappedOf up l net with
      | nil => rfl
      | cons x t => rw [h] at hu; simp at hu
    rw [h0]
    rw [if_neg (List.not_mem_nil a), Option.none_or]
  · rw [if_neg hu]
    exact objGet_fallbackLoop up _ _ _ a

/-- The calls of the main branch: the single bulk call over the
non-stablecoin remainder, then one simple-price call per still-unresolved
address that has a mapped id, in order. -/
theorem calls_getTokenPrices_main (up : Upstream) (now : Nat)
    (l : List String) (net : String) (hns : nonStableOf l net ≠ []) :
    (getTokenPrices up now [] l net).calls =
      UpstreamCall.onchainMulti net (nonStableOf l net) ::
        (unmappedOf up l net).filterMap
          (fun x => (objGet (TokenRegistry.getKnownTokenMapping net) x).map
            UpstreamCall.simplePrice) := by
  rw [getTokenPrices_main up now l net hns]
  show UpstreamCall.onchainMulti net (nonStableOf l net) ::
      (if (unmappedOf up l net).isEmpty
        then (bulkMapOf up l net, ([] : List UpstreamCall))
        else fallbackLoop up (TokenRegistry.getKnownTokenMapping net)
          (unmappedOf up l net) (bulkMapOf up l net)).2 = _
  by_cases hu : (unmappedOf up l net).isEmpty = true
  · rw [if_pos hu]
    have h0 : unmappedOf up l net = [] := by
      cases h : unmappedOf up l net with
      | nil => rfl
      | cons x t => rw [h] at hu; simp at hu
    rw [h0]
    rfl
  · rw [if_neg hu, fallbackLoop_calls]

theorem not_mem_nonStable_of_stable (l : List String) (net a : String)
    (hc : (TokenRegistry.getStablecoinAddresses net).contains a = true) :
    a ∉ nonStableOf l net := by
  intro hmem
  unfold nonStableOf at hmem
  rw [List.mem_filter] at hmem
  simp only [decide_eq_true_eq] at hmem
  exact hmem.2 hc

theorem unmapped_subset_nonStable (up : Upstream) (l : List String)
    (net a : String) (h : a ∈ unmappedOf up l net) :
    a ∈ nonStableOf l net := by
  unfold unmappedOf at h
  exact (List.mem_filter.mp h).1

/-- C5: resolution tiers are additive in order.  (a) Every listed registry
stablecoin ends at exactly `1.0`, untouched by the later tiers.  (b) When
the non-stablecoin remainder is non-empty, the call trace is exactly the
single bulk call over that remainder followed by one simple-price call per
post-bulk-unresolved address that has a mapped id.  (c) A non-stablecoin
address that the bulk tier did not resolve and that has no registry-mapped
id is absent from the returned map. -/
theorem getTokenPrices_tiers_additive (up : Upstream) (now : Nat)
    (l : List String) (net : String) :
    (∀ a ∈ l, TokenRegistry.isStablecoin a net = true →
      objGet (getTokenPrices up now [] l net).val a = some 1) ∧
    (nonStableOf l net ≠ [] →
      (getTokenPrices up now [] l net).calls =
        UpstreamCall.onchainMulti net (nonStableOf l net) ::
          (unmappedOf up l net).filterMap
            (fun x => (objGet (TokenRegistry.getKnownTokenMapping net) x).map
              UpstreamCall.simplePrice)) ∧
    (∀ a ∈ l, a ≠ "" → TokenRegistry.isStablecoin a net = false →
      bulkPrice up net (nonStableOf l net) a = none →
      TokenRegistry.getCoinGeckoId a net = none →
      objGet (getTokenPrices up now [] l net).val a = none) := by
  refine ⟨?_, calls_getTokenPrices_main up now l net, ?_⟩
  · intro a ha hstab
    rw [isStablecoin_eq] at hstab
    have hav : a ∈ validOf l := (mem_validOf a l).mpr
      ⟨ha, mem_stablecoins_ne_empty net a ((contains_iff_mem _ a).mp hstab)⟩
    have hnons : a ∉ nonStableOf l net :=
      not_mem_nonStable_of_stable l net a hstab
    by_cases hns : nonStableOf l net = []
    · have hv : validOf l ≠ [] := by
        intro h
        rw [h] at hav
        exact absurd hav (List.not_mem_nil a)
      rw [getTokenPrices_allStable up now l net hv hns]
      show objGet (stableMapOf l net) a = some 1
      rw [objGet_stableMapOf l net a hav, if_pos hstab]
    · rw [objGet_getTokenPrices_main up now l net a hns,
        objGet_bulkMapOf up l net a hav,
        if_neg (fun h => hnons (unmapped_subset_nonStable up l net a h)),
        if_neg hnons, Option.none_or, Option.none_or, if_pos hstab]
  · intro a ha hne hstab hbulk hid
    rw [isStablecoin_eq] at hstab
    have hav : a ∈ validOf l := (mem_validOf a l).mpr ⟨ha, hne⟩
    have hnons : a ∈ nonStableOf l net := by
      unfold nonStableOf
      rw [List.mem_filter]
      exact ⟨hav, by simp only [hstab]; decide⟩
    have hns : nonStableOf l net ≠ [] := by
      intro h
      rw [h] at hnons
      exact absurd hnons (List.not_mem_nil a)
    have hfb : fbPrice up (TokenRegistry.getKnownTokenMapping net) a = none := by
      unfold fbPrice
      have : objGet (TokenRegistry.getKnownTokenMapping net) a = none := hid
      rw [this]
    rw [objGet_getTokenPrices_main up now l net a hns,
      objGet_bulkMapOf up l net a hav, hbulk, hstab, hfb]
    simp

/-- Witness for C5 at a concrete input: one Solana stablecoin plus one
unknown address, with the bulk tier pricing everything at 5. -/
theorem getTokenPrices_tiers_additive_witness :
    objGet (getTokenPrices succeedingUpstream 0 []
      ["EPjFWdd5AufqSSqeM2qN1xzybapC8G4wEGGkZwyTDt1v", "tokX"]
      "solana").val "EPjFWdd5AufqSSqeM2qN1xzybapC8G4wEGGkZwyTDt1v" = some 1 ∧
    (getTokenPrices succeedingUpstream 0 []
      ["EPjFWdd5AufqSSqeM2qN1xzybapC8G4wEGGkZwyTDt1v", "tokX"]
      "solana").calls =
      UpstreamCall.onchainMulti "solana"
        (nonStableOf ["EPjFWdd5AufqSSqeM2qN1xzybapC8G4wEGGkZwyTDt1v", "tokX"]
          "solana") ::
        (unmappedOf succeedingUpstream
          ["EPjFWdd5AufqSSqeM2qN1xzybapC8G4wEGGkZwyTDt1v", "tokX"]
          "solana").filterMap
          (fun x => (objGet (TokenRegistry.getKnownTokenMapping "solana") x).map
            UpstreamCall.simplePrice) ∧
    objGet (getTokenPrices failingUpstream 0 []
      ["EPjFWdd5AufqSSqeM2qN1xzybapC8G4wEGGkZwyTDt1v", "tokX"]
      "solana").val "tokX" = none := by
  have h := getTokenPrices_tiers_additive succeedingUpstream 0
    ["EPjFWdd5AufqSSqeM2qN1xzybapC8G4wEGGkZwyTDt1v", "tokX"] "solana"
  have h' := getTokenPrices_tiers_additive failingUpstream 0
    ["EPjFWdd5AufqSSqeM2qN1xzybapC8G4wEGGkZwyTDt1v", "tokX"] "solana"
  exact ⟨h.1 _ (by decide) (by decide), h.2.1 (by decide),
    h'.2.2 "tokX" (by decide) (by decide) (by decide) (by decide) (by decide)⟩



/-- C10: resolution is tested by value truthiness, not key presence.
First: an address whose bulk-tier price parses to `0` is still passed to
the fallback tier (its simple-price call is issued when an id is mapped),
and a non-zero fallback price overwrites the `0`.  Second: a fallback
price of `0` is never recorded — an address the bulk tier did not answer
stays absent even when its mapped id's fallback returns `0`. -/
theorem getTokenPrices_zero_is_unresolved (up up' : Upstream) (now : Nat)
    (l : List String) (a net tokenId : String) (q : Rat)
    (hal : a ∈ l) (hane : a ≠ "")
    (hastab : TokenRegistry.isStablecoin a net = false)
    (hid : TokenRegistry.getCoinGeckoId a net = some tokenId) :
    (bulkPrice up net (nonStableOf l net) a = some 0 →
      a ∈ unmappedOf up l net ∧
      UpstreamCall.simplePrice tokenId ∈ (getTokenPrices up now [] l net).calls ∧
      (up.simplePrice tokenId = some q → q ≠ 0 →
        objGet (getTokenPrices up now [] l net).val a = some q)) ∧
    (bulkPrice up' net (nonStableOf l net) a = none →
      up'.simplePrice tokenId = some 0 →
      objGet (getTokenPrices up' now [] l net).val a = none) := by
  rw [isStablecoin_eq] at hastab
  have hav : a ∈ validOf l := (mem_validOf a l).mpr ⟨hal, hane⟩
  have hnons : a ∈ nonStableOf l net := by
    unfold nonStableOf
    rw [List.mem_filter]
    exact ⟨hav, by simp only [hastab]; decide⟩
  have hns : nonStableOf l net ≠ [] := by
    intro h
    rw [h] at hnons
    exact absurd hnons (List.not_mem_nil a)
  constructor
  · intro hbulk
    have hbmap : objGet (bulkMapOf up l net) a = some 0 := by
      rw [objGet_bulkMapOf up l net a hav, if_pos hnons, hbulk]
      rfl
    have hunm : a ∈ unmappedOf up l net := by
      unfold unmappedOf
      rw [List.mem_filter]
      refine ⟨hnons, ?_⟩
      unfold objTruthy
      rw [hbmap]
      simp
    refine ⟨hunm, ?_, ?_⟩
    · rw [calls_getTokenPrices_main up now l net hns]
      apply List.mem_cons_of_mem
      rw [List.mem_filterMap]
      exact ⟨a, hunm, by rw [show objGet (TokenRegistry.getKnownTokenMapping net) a =
        some tokenId from hid]; rfl⟩
    · intro hsp hq
      rw [objGet_getTokenPrices_main up now l net a hns, if_pos hunm]
      rw [show fbPrice up (TokenRegistry.getKnownTokenMapping net) a = some q from by
        unfold fbPrice
        rw [show objGet (TokenRegistry.getKnownTokenMapping net) a =
          some tokenId from hid]
        show (match up.simplePrice tokenId with
              | some usd => if usd ≠ 0 then some usd else none
              | none => none) = some q
        rw [hsp]
        show (if q ≠ 0 then some q else none) = some q
        rw [if_pos hq]]
      rfl
  · intro hbulk hsp
    rw [objGet_getTokenPrices_main up' now l net a hns]
    rw [show fbPrice up' (TokenRegistry.getKnownTokenMapping net) a = none from by
      unfold fbPrice
      rw [show objGet (TokenRegistry.getKnownTokenMapping net) a =
        some tokenId from hid]
      show (match up'.simplePrice tokenId with
            | some usd => if usd ≠ 0 then some usd else none
            | none => none) = none
      rw [hsp]
      show (if (0 : Rat) ≠ 0 then some (0 : Rat) else none) = none
      rw [if_neg (fun h => h rfl)]]
    rw [objGet_bulkMapOf up' l net a hav, hbulk, hastab]
    simp

/-- Witness for C10 at a concrete input: the wrapped-SOL mint on solana,
whose registry id is `solana`. -/
theorem getTokenPrices_zero_is_unresolved_witness :
    objGet (getTokenPrices zeroBulkUpstream 0 []
      ["So11111111111111111111111111111111111111112"] "solana").val
      "So11111111111111111111111111111111111111112" = some 7 ∧
    UpstreamCall.simplePrice "solana" ∈
      (getTokenPrices zeroBulkUpstream 0 []
        ["So11111111111111111111111111111111111111112"] "solana").calls ∧
    objGet (getTokenPrices zeroFallbackUpstream 0 []
      ["So11111111111111111111111111111111111111112"] "solana").val
      "So11111111111111111111111111111111111111112" = none := by
  have h := getTokenPrices_zero_is_unresolved zeroBulkUpstream
    zeroFallbackUpstream 0 ["So11111111111111111111111111111111111111112"]
    "So11111111111111111111111111111111111111112" "solana" "solana" 7
    (by decide) (by decide) (by decide) (by decide)
  exact ⟨(h.1 (by decide)).2.2 (by decide) (by decide),
    (h.1 (by decide)).2.1, h.2 (by decide) (by decide)⟩

/-- C7: registry lookups on an unsupported network degrade to empty
list / empty map / absent / `false` and never fail; matching is
case-insensitive on the network name only (two names equal up to
lowercasing give identical results), while token addresses are compared
byte-for-byte (a case-changed address is not recognized, shown on the
Solana USDC mint, whose lowercased form is rejected even though the
network name itself may be case-changed). -/
theorem tokenRegistry_lookup_rules (net a n₁ n₂ : String)
    (hsup : TokenRegistry.isNetworkSupported net = false)
    (hlow : toLowerStr n₁ = toLowerStr n₂) :
    TokenRegistry.getStablecoinAddresses net = [] ∧
    TokenRegistry.getKnownTokenMapping net = [] ∧
    TokenRegistry.getCoinGeckoId a net = none ∧
    TokenRegistry.isStablecoin a net = false ∧
    TokenRegistry.getStablecoinAddresses n₁ =
      TokenRegistry.getStablecoinAddresses n₂ ∧
    TokenRegistry.getKnownTokenMapping n₁ =
      TokenRegistry.getKnownTokenMapping n₂ ∧
    TokenRegistry.isStablecoin a n₁ = TokenRegistry.isStablecoin a n₂ ∧
    TokenRegistry.getCoinGeckoId a n₁ = TokenRegistry.getCoinGeckoId a n₂ ∧
    TokenRegistry.isStablecoin
      "epjfwdd5aufqssqem2qn1xzybapc8g4weggkzwytdt1v" "SOLANA" = false ∧
    TokenRegistry.isStablecoin
      "EPjFWdd5AufqSSqeM2qN1xzybapC8G4wEGGkZwyTDt1v" "SOLANA" = true := by
  have hnone := networkTokens_eq_none_of_unsupported net hsup
  have hstb : TokenRegistry.getStablecoinAddresses net = [] := by
    unfold TokenRegistry.getStablecoinAddresses
    rw [hnone]
  have hmap : TokenRegistry.getKnownTokenMapping net = [] := by
    unfold TokenRegistry.getKnownTokenMapping
    rw [hnone]
  refine ⟨hstb, hmap, ?_, ?_, ?_, ?_, ?_, ?_, by decide, by decide⟩
  · unfold TokenRegistry.getCoinGeckoId
    rw [hmap]
    rfl
  · unfold TokenRegistry.isStablecoin
    rw [hstb]
    rfl
  · unfold TokenRegistry.getStablecoinAddresses
    rw [hlow]
  · unfold TokenRegistry.getKnownTokenMapping
    rw [hlow]
  · unfold TokenRegistry.isStablecoin TokenRegistry.getStablecoinAddresses
    rw [hlow]
  · unfold TokenRegistry.getCoinGeckoId TokenRegistry.getKnownTokenMapping
    rw [hlow]

/-- Witness for C7 at concrete inputs: the unsupported network
`"avalanche"` and the case-variants `"Base"`, `"bASE"`. -/
theorem tokenRegistry_lookup_rules_witness :
    TokenRegistry.getStablecoinAddresses "avalanche" = [] ∧
    TokenRegistry.getKnownTokenMapping "avalanche" = [] ∧
    TokenRegistry.getCoinGeckoId "tokX" "avalanche" = none ∧
    TokenRegistry.isStablecoin "tokX" "avalanche" = false ∧
    TokenRegistry.getStablecoinAddresses "Base" =
      TokenRegistry.getStablecoinAddresses "bASE" ∧
    TokenRegistry.getKnownTokenMapping "Base" =
      TokenRegistry.getKnownTokenMapping "bASE" ∧
    TokenRegistry.isStablecoin "tokX" "Base" =
      TokenRegistry.isStablecoin "tokX" "bASE" ∧
    TokenRegistry.getCoinGeckoId "tokX" "Base" =
      TokenRegistry.getCoinGeckoId "tokX" "bASE" ∧
    TokenRegistry.isStablecoin
      "epjfwdd5aufqssqem2qn1xzybapc8g4weggkzwytdt1v" "SOLANA" = false ∧
    TokenRegistry.isStablecoin
      "EPjFWdd5AufqSSqeM2qN1xzybapC8G4wEGGkZwyTDt1v" "SOLANA" = true :=
  tokenRegistry_lookup_rules "avalanche" "tokX" "Base" "bASE"
    (by decide) (by decide)

/-- C8: `getTokenData` on a registry stablecoin synthesizes a record with
`price_usd = 1.0` and symbol/name/decimals from the registry stablecoin
metadata (with the `"STABLECOIN"`/`"Stablecoin"`/`6` defaults when no
metadata entry matches), caches it under the network-qualified key, and
performs zero upstream calls. -/
theorem getTokenData_stablecoin (up : Upstream) (now : Nat) (a net : String)
    (h : TokenRegistry.isStablecoin a net = true) :
    getTokenData up now [] a net =
      (let metadata := (TokenRegistry.getStablecoinMetadata net).find?
        (fun s => s.address = a)
       let record : TokenData :=
        { address := a
          network := toLowerStr net
          price_usd := some 1
          symbol := some (jsOrStr (metadata.map (fun m => m.symbol)) "STABLECOIN")
          name := some (jsOrStr (metadata.map (fun m => m.name)) "Stablecoin")
          decimals := some (jsOrNat (metadata.map (fun m => m.decimals)) 6) }
       ⟨some record,
        [("token_data_" ++ net ++ "_" ++ a, ⟨.tokenData record, now⟩)], []⟩) := by
  have hane : a ≠ "" :=
    mem_stablecoins_ne_empty net a ((contains_iff_mem _ a).mp h)
  unfold getTokenData
  rw [if_neg hane]
  simp only [getCachedData_nil, Option.filter_none, h, eq_self_iff_true,
    if_true]
  rfl

/-- Witness for C8 at a concrete input: the Base USDC stablecoin. -/
theorem getTokenData_stablecoin_witness :
    getTokenData failingUpstream 0 []
        "0x833589fCD6eDb6E08f4c7C32D4f71b54bdA02913" "Base" =
      (let metadata := (TokenRegistry.getStablecoinMetadata "Base").find?
        (fun s => s.address = "0x833589fCD6eDb6E08f4c7C32D4f71b54bdA02913")
       let record : TokenData :=
        { address := "0x833589fCD6eDb6E08f4c7C32D4f71b54bdA02913"
          network := toLowerStr "Base"
          price_usd := some 1
          symbol := some (jsOrStr (metadata.map (fun m => m.symbol)) "STABLECOIN")
          name := some (jsOrStr (metadata.map (fun m => m.name)) "Stablecoin")
          decimals := some (jsOrNat (metadata.map (fun m => m.decimals)) 6) }
       ⟨some record,
        [("token_data_" ++ "Base" ++ "_" ++
            "0x833589fCD6eDb6E08f4c7C32D4f71b54bdA02913",
          ⟨.tokenData record, 0⟩)], []⟩) :=
  getTokenData_stablecoin failingUpstream 0
    "0x833589fCD6eDb6E08f4c7C32D4f71b54bdA02913" "Base" (by decide)

/-! ## Cache writes happen only on successful resolution (C9) -/

theorem getCachedData_nil_fst (now : Nat) (k : String) :
    (getCachedData [] now k).1 = none := rfl

theorem getCachedData_nil_snd (now : Nat) (k : String) :
    (getCachedData [] now k).2 = [] := rfl

theorem objGet_singleton_ne {β : Type} (k k' : String) (e : β) (h : k' ≠ k) :
    objGet [(k, e)] k' = none := by
  unfold objGet
  rw [List.find?_cons_of_neg _ (by simp [Ne.symm h])]
  rfl

/-- The two cache-key families used by `getTokenPrices` and
`getTokenData` never collide: they start with different characters. -/
theorem token_data_key_ne_prices_key (net a x : String) :
    ¬ ("token_data_" ++ net ++ "_" ++ a = "prices_" ++ x) := by
  intro h
  have h2 : ("token_data_" ++ net ++ "_" ++ a).data = ("prices_" ++ x).data :=
    congrArg String.data h
  rw [String.data_append, String.data_append, String.data_append,
    String.data_append] at h2
  have h3 := congrArg List.head? h2
  rw [show ((("token_data_".data ++ net.data) ++ "_".data) ++ a.data).head? =
        some 't' from rfl,
      show ("prices_".data ++ x.data).head? = some 'p' from rfl] at h3
  exact absurd h3 (by decide)

theorem cacheStoreShape (now : Nat) (p : Rat) (c : Cache)
    (hc : objGet c "solana_price" = none) :
    objGet (if p > 0 then setCachedData c now "solana_price" (.price p) else c)
      "solana_price" =
      if 0 < p then some ⟨.price p, now⟩ else none := by
  by_cases hp : 0 < p
  · rw [if_pos hp, if_pos hp]
    exact objGet_objSet_self c _ _
  · rw [if_neg hp, if_neg hp, hc]

/-- `getSolanaPrice` stores a `solana_price` entry exactly when the
resolved price is positive. -/
theorem getSolanaPrice_cache_on_success (up : Upstream) (now : Nat) :
    objGet (getSolanaPrice up now []).cache "solana_price" =
      if 0 < (getSolanaPrice up now []).val
      then some ⟨.price (getSolanaPrice up now []).val, now⟩ else none := by
  have hkey : objGet
      (getTokenPrices up now [] [solMintAddress] "solana").cache
      "solana_price" = none := by
    rw [getTokenPrices_cache_shape]
    by_cases hv :
        (getTokenPrices up now [] [solMintAddress] "solana").val.isEmpty = true
    · rw [if_pos hv]
      rfl
    · rw [if_neg hv]
      exact objGet_singleton_ne _ _ _ (by decide)
  unfold getSolanaPrice
  simp only [getCachedData_nil_fst, getCachedData_nil_snd, Option.filter_none]
  by_cases hp : (objGet (getTokenPrices up now [] [solMintAddress]
      "solana").val solMintAddress).getD 0 = 0
  · simp only [hp, eq_self_iff_true, if_true]
    cases hsp : up.simplePrice "solana" with
    | some usd =>
        simp only [hsp]
        exact cacheStoreShape now usd _ hkey
    | none =>
        simp only [hsp]
        rw [if_neg (lt_irrefl 0), if_neg (lt_irrefl 0), hkey]
  · simp only [hp, if_false]
    exact cacheStoreShape now _ _ hkey

/-- `getTokenData` never stores anything under its key when it returns
`null`. -/
theorem getTokenData_no_cache_on_absent (up : Upstream) (now : Nat)
    (a net : String) (hval : (getTokenData up now [] a net).val = none) :
    objGet (getTokenData up now [] a net).cache
      ("token_data_" ++ net ++ "_" ++ a) = none := by
  by_cases hae : a = ""
  · subst hae
    rfl
  · by_cases hst : TokenRegistry.isStablecoin a net = true
    · rw [getTokenData_stablecoin up now a net hst] at hval
      exact absurd hval (by simp)
    · have hstf : TokenRegistry.isStablecoin a net = false :=
        Bool.eq_false_iff.mpr hst
      have hprices : objGet
          (getTokenPrice up now [] a net).cache
          ("token_data_" ++ net ++ "_" ++ a) = none := by
        show objGet (getTokenPrices up now [] [a] net).cache _ = none
        rw [getTokenPrices_cache_shape]
        by_cases hv : (getTokenPrices up now [] [a] net).val.isEmpty = true
        · rw [if_pos hv]
          rfl
        · rw [if_neg hv]
          exact objGet_singleton_ne _ _ _ (token_data_key_ne_prices_key net a _)
      unfold getTokenData at hval ⊢
      rw [if_neg hae] at hval ⊢
      simp only [getCachedData_nil_fst, getCachedData_nil_snd,
        Option.filter_none, hstf, Bool.false_eq_true, if_false] at hval ⊢
      cases hoc : up.onchainToken net a with
      | some attrs =>
          simp only [hoc] at hval
          exact absurd hval (by simp)
      | none =>
          simp only [hoc] at hval ⊢
          unfold getTokenDataCoinsTier at hval ⊢
          cases hid : TokenRegistry.getCoinGeckoId a net with
          | some tokenId =>
              simp only [hid] at hval ⊢
              cases hcd : up.coinsDetail tokenId with
              | some d =>
                  simp only [hcd] at hval
                  exact absurd hval (by simp)
              | none =>
                  simp only [hcd] at hval ⊢
                  unfold getTokenDataPriceTier at hval ⊢
                  by_cases hpr : (getTokenPrice up now [] a net).val > 0
                  · rw [if_pos hpr] at hval
                    exact absurd hval (by simp)
                  · rw [if_neg hpr]
                    exact hprices
          | none =>
              simp only [hid] at hval ⊢
              unfold getTokenDataPriceTier at hval ⊢
              by_cases hpr : (getTokenPrice up now [] a net).val > 0
              · rw [if_pos hpr] at hval
                exact absurd hval (by simp)
              · rw [if_neg hpr]
                exact hprices

/-- C9: a cache entry is created only on successful resolution.
`getTokenPrices` stores (exactly its own key, holding the returned map)
iff the merged map is non-empty — and after an empty result the next call
starts from the same empty cache; `getSolanaPrice` stores its entry iff
the price is positive; `getTokenData` stores nothing under its key when
it returns `null`. -/
theorem cache_only_on_success (up up' : Upstream) (now now₂ : Nat)
    (l : List String) (a net : String) :
    ((getTokenPrices up now [] l net).val = [] →
      (getTokenPrices up now [] l net).cache = [] ∧
      getTokenPrices up' now₂ (getTokenPrices up now [] l net).cache l net =
        getTokenPrices up' now₂ [] l net) ∧
    ((getTokenPrices up now [] l net).val ≠ [] →
      (getTokenPrices up now [] l net).cache =
        [(priceKey l, ⟨.prices (getTokenPrices up now [] l net).val, now⟩)]) ∧
    (objGet (getSolanaPrice up now []).cache "solana_price" =
      if 0 < (getSolanaPrice up now []).val
      then some ⟨.price (getSolanaPrice up now []).val, now⟩ else none) ∧
    ((getTokenData up now [] a net).val = none →
      objGet (getTokenData up now [] a net).cache
        ("token_data_" ++ net ++ "_" ++ a) = none) := by
  refine ⟨?_, ?_, getSolanaPrice_cache_on_success up now,
    getTokenData_no_cache_on_absent up now a net⟩
  · intro hval
    have hc : (getTokenPrices up now [] l net).cache = [] := by
      rw [getTokenPrices_cache_shape, hval]
      rfl
    exact ⟨hc, by rw [hc]⟩
  · intro hval
    have hv : (getTokenPrices up now [] l net).val.isEmpty = false := by
      cases h : (getTokenPrices up now [] l net).val with
      | nil => exact absurd h hval
      | cons x t => rfl
    rw [getTokenPrices_cache_shape, hv]
    rfl

/-- Witness for C9 at a concrete input. -/
theorem cache_only_on_success_witness :
    (getTokenPrices failingUpstream 0 [] ["tokX"] "solana").cache = [] ∧
    (getTokenPrices succeedingUpstream 0 [] ["tokX"] "solana").cache =
      [(priceKey ["tokX"],
        ⟨.prices (getTokenPrices succeedingUpstream 0 [] ["tokX"] "solana").val,
          0⟩)] ∧
    objGet (getSolanaPrice failingUpstream 0 []).cache "solana_price" =
      none ∧
    objGet (getTokenData failingUpstream 0 [] "tokX" "solana").cache
      ("token_data_" ++ "solana" ++ "_" ++ "tokX") = none := by
  have h := cache_only_on_success failingUpstream failingUpstream 0 0
    ["tokX"] "tokX" "solana"
  have h' := cache_only_on_success succeedingUpstream failingUpstream 0 0
    ["tokX"] "tokX" "solana"
  refine ⟨(h.1 (by decide)).1, h'.2.1 (by decide), ?_, h.2.2.2 (by decide)⟩
  have h3 := h.2.2.1
  rwa [if_neg (by decide)] at h3

/-! ## Batch splitter (C6) -/

theorem chunkGo_nil (fuel n : Nat) : chunkGo fuel [] n = [] := by
  cases fuel <;> rfl

theorem chunkGo_succ_cons (fuel n : Nat) (a : String) (l : List String) :
    chunkGo (fuel + 1) (a :: l) n =
      (a :: l).take n :: chunkGo fuel ((a :: l).drop n) n := rfl

/-- For an input of length `2n + 1` with `n ≥ 1`, the chunking loop
produces exactly three contiguous chunks `[0,n)`, `[n,2n)`, `[2n,2n+1)`,
the last of length 1. -/
theorem chunkList_three (l : List String) (n : Nat) (h : l.length = 2 * n + 1)
    (hn : 1 ≤ n) :
    chunkList l n = [l.take n, (l.drop n).take n, (l.drop n).drop n] ∧
    ((l.drop n).drop n).length = 1 := by
  have hlen2 : ((l.drop n).drop n).length = 1 := by
    rw [List.length_drop, List.length_drop, h]
    omega
  refine ⟨?_, hlen2⟩
  unfold chunkList
  rw [h]
  obtain ⟨m, rfl⟩ : ∃ m, n = m + 1 := ⟨n - 1, by omega⟩
  obtain ⟨a, l', rfl⟩ : ∃ a l', l = a :: l' := by
    cases l with
    | nil => exfalso; simp at h
    | cons a l' => exact ⟨a, l', rfl⟩
  rw [chunkGo_succ_cons]
  have h2 : 2 * (m + 1) = (2 * m + 1) + 1 := by ring
  rw [h2]
  obtain ⟨b, t1, hbt⟩ : ∃ b t1, (a :: l').drop (m + 1) = b :: t1 := by
    have hd1 : ((a :: l').drop (m + 1)).length = m + 2 := by
      rw [List.length_drop, h]
      omega
    cases hd : (a :: l').drop (m + 1) with
    | nil => rw [hd] at hd1; simp at hd1
    | cons b t1 => exact ⟨b, t1, rfl⟩
  rw [hbt, chunkGo_succ_cons]
  obtain ⟨c, hc⟩ : ∃ c, (b :: t1).drop (m + 1) = [c] := by
    have hd2 : ((b :: t1).drop (m + 1)).length = 1 := by
      rw [hbt] at hlen2
      exact hlen2
    cases hd : (b :: t1).drop (m + 1) with
    | nil => rw [hd] at hd2; simp at hd2
    | cons c t2 =>
        rw [hd] at hd2
        simp only [List.length_cons, Nat.add_left_eq_self,
          List.length_eq_zero] at hd2
        exact ⟨c, by rw [hd2]⟩
  rw [hc, chunkGo_succ_cons]
  simp [chunkGo_nil]


/-- C6: an input of length at most `batchSize` delegates to a single
`getTokenPrices` call; an input of length `2n + 1` (with `n ≥ 1`) is
partitioned into the three contiguous chunks `[0,n)`, `[n,2n)`,
`[2n,2n+1)`, resolved sequentially in order, and the results are merged
additively with `Object.assign`; a chunk whose resolution produces
nothing still lets the remaining chunks run, whose results are returned
(shown concretely with the middle chunk failing). -/
theorem getTokenPricesBatch_spec (up : Upstream) (now : Nat) (cache : Cache)
    (l : List String) (batchSize n : Nat) (net : String) :
    (l.length ≤ batchSize →
      getTokenPricesBatch up now cache l batchSize net =
        getTokenPrices up now cache l net) ∧
    (l.length = 2 * n + 1 → 1 ≤ n →
      chunkList l n = [l.take n, (l.drop n).take n, (l.drop n).drop n] ∧
      ((l.drop n).drop n).length = 1 ∧
      getTokenPricesBatch up now cache l n net =
        (let r1 := getTokenPrices up now cache (l.take n) net
         let r2 := getTokenPrices up now r1.cache ((l.drop n).take n) net
         let r3 := getTokenPrices up now r2.cache ((l.drop n).drop n) net
         ⟨objAssign (objAssign (objAssign [] r1.val) r2.val) r3.val,
           r3.cache, (r1.calls ++ r2.calls) ++ r3.calls⟩)) ∧
    (getTokenPricesBatch midFailUpstream 0 [] ["ta", "tb", "tc"] 1
        "solana").val = [("ta", 5), ("tc", 5)] := by
  refine ⟨?_, ?_, by decide⟩
  · intro hle
    unfold getTokenPricesBatch
    rw [if_pos hle]
  · intro hlen hn
    obtain ⟨hchunks, hlast⟩ := chunkList_three l n hlen hn
    refine ⟨hchunks, hlast, ?_⟩
    unfold getTokenPricesBatch
    rw [if_neg (by omega), hchunks]
    rfl

/-- Witness for C6 at a concrete input: batch size 1, three addresses. -/
theorem getTokenPricesBatch_spec_witness :
    chunkList ["ta", "tb", "tc"] 1 = [["ta"], ["tb"], ["tc"]] ∧
    (getTokenPricesBatch midFailUpstream 0 [] ["ta", "tb", "tc"] 1
        "solana").val = [("ta", 5), ("tc", 5)] ∧
    getTokenPricesBatch succeedingUpstream 0 [] ["ta", "tb"] 30 "solana" =
      getTokenPrices succeedingUpstream 0 [] ["ta", "tb"] "solana" := by
  have h := getTokenPricesBatch_spec midFailUpstream 0 [] ["ta", "tb", "tc"]
    30 1 "solana"
  have h' := getTokenPricesBatch_spec succeedingUpstream 0 [] ["ta", "tb"]
    30 1 "solana"
  exact ⟨(h.2.1 (by decide) (by decide)).1, h.2.2, h'.1 (by decide)⟩

/-! ## The `getTokenPrices` cache key ignores the network (C1) -/


/-- C1 (code bug, evaluated at the failing input): the `getTokenPrices`
cache key is `prices_` plus the sorted, comma-joined address list — with
no network component — so a call for the same address on network `"base"`
within the TTL is served the map cached by the earlier `"solana"` call,
with zero upstream calls, even though the upstream has no price for that
address on `"base"`.  (`getTokenData`'s key, by contrast, is
network-qualified.) -/
theorem getTokenPrices_cache_key_ignores_network :
    priceKey ["So11111111111111111111111111111111111111112"] =
      "prices_So11111111111111111111111111111111111111112" ∧
    (getTokenPrices solanaOnlyUpstream 0 []
        ["So11111111111111111111111111111111111111112"] "solana").val =
      [("So11111111111111111111111111111111111111112", 100)] ∧
    solanaOnlyUpstream.onchainMulti "base"
        ["So11111111111111111111111111111111111111112"] = none ∧
    getTokenPrices solanaOnlyUpstream 1
        (getTokenPrices solanaOnlyUpstream 0 []
          ["So11111111111111111111111111111111111111112"] "solana").cache
        ["So11111111111111111111111111111111111111112"] "base" =
      ⟨[("So11111111111111111111111111111111111111112", 100)],
        (getTokenPrices solanaOnlyUpstream 0 []
          ["So11111111111111111111111111111111111111112"] "solana").cache,
        []⟩ :=
  ⟨rfl, by decide, rfl, by decide⟩

end AIWallet
